import Mathlib

/-!
# comicfleet: the comic data-access layer and its handlers

A shallow embedding of `internal/data/volumes.go`, `internal/data/comics.go`,
`internal/data/models.go` and `cmd/api/comics.go`.

Conventions of the embedding
* Go's `int32`/`int64` values are `Int`; conversions that can wrap are written
  through `int32`.
* A Go `string` that is inspected byte by byte (the Volumes codec) is a
  `List Nat` of bytes; titles, genres, header values and map keys are Lean
  `String`s, whose `utf8ByteSize` is Go's `len`.
* A Go slice that may be `nil` is an `Option (List _)`, `none` being `nil`.
* A Go `error` is an `Option GoError`, `none` being `nil`.
* A method with a pointer receiver or a pointer argument returns the new
  value of what it points to next to its result.
* A loop of the Go library that eats its input is a function with a fuel
  argument, one unit per round; the callers pass more fuel than the loop can
  use, and the result does not depend on how much more
  (`unquoteLoop_fuel`, `appendQuotedLoop_fuel`, `ValidStringLoop_fuel`,
  `formatBits_fuel`).
* The store is the table `comics` as a map from id to row; driver failures
  (lost connection, expired deadline) are outside it.
-/

namespace Comicfleet

/-! ## Errors (`internal/data/models.go`, `internal/data/volumes.go`) -/

/-- The error values the comic code distinguishes with `errors.Is`; every other
error (driver failures, JSON failures) is `other` with its text. -/
inductive GoError where
  | RecordNotFoundError
  | EditConflictError
  | ErrNoRows
  | ErrInvalidVolumeFormat
  | other (msg : String)
  deriving DecidableEq, Repr

/-! ## The comic (`internal/data/comics.go`) -/

/-- The struct `Comic`; `CreatedAt` is a timestamp, `Genres = none` is the nil slice. -/
structure Comic where
  ID : Int
  CreatedAt : Int
  Title : String
  Year : Int
  Volumes : Int
  Genres : Option (List String)
  Version : Int
  deriving DecidableEq, Repr

/-- Go's `len` of a slice that may be nil. -/
def sliceLen {α : Type} : Option (List α) → Nat
  | none => 0
  | some xs => xs.length

/-! ## The validator (`internal/validator`, consumed by `ValidateComic`) -/

/-- Modelled from the spec: the type `validator.Validator` (package
`internal/validator` is not among the sources) is the field-errors mapping of
§4.2, "mapping field name → first violated rule's message"; the entries are
kept in the order they were added. -/
structure Validator where
  Errors : List (String × String)
  deriving DecidableEq, Repr

namespace Validator

/-- Modelled from the spec: `validator.New` (not among the sources) gives a
validator with an empty field-errors mapping. -/
def New : Validator := ⟨[]⟩

/-- Modelled from the spec: `Valid` (not among the sources) holds when the
field-errors mapping has no entry. -/
def Valid (v : Validator) : Bool := v.Errors.isEmpty

/-- Whether the mapping has a message under `key`. -/
def hasKey (v : Validator) (key : String) : Bool := v.Errors.any (fun e => e.1 == key)

/-- Modelled from the spec: `AddError` (not among the sources); "a field
accumulates at most one reported message even if multiple rules fail —
first-applicable-rule wins". -/
def AddError (v : Validator) (key message : String) : Validator :=
  if v.hasKey key then v else ⟨v.Errors ++ [(key, message)]⟩

/-- Modelled from the spec: `Check` (not among the sources) records `message`
under `key` when the rule `ok` is violated. -/
def Check (v : Validator) (ok : Bool) (key message : String) : Validator :=
  if ok then v else v.AddError key message

end Validator

/-- Modelled from the spec: `validator.Unique` (not among the sources) is the rule
"no duplicate elements", "case-sensitive exact match". -/
def Unique (values : Option (List String)) : Bool :=
  match values with
  | none => true
  | some xs => decide xs.Nodup

/-- The function `ValidateComic`, lines 199-214 of `internal/data/comics.go`;
`nowYear` is the value of `int32(time.Now().Year())`. -/
def ValidateComic (nowYear : Int) (v : Validator) (comic : Comic) : Validator :=
  let v := v.Check (comic.Title != "") "title" "must be provided"
  let v := v.Check (decide (comic.Title.utf8ByteSize ≤ 500)) "title" "must not be more than 500 bytes long"
  let v := v.Check (comic.Year != 0) "year" "must be provided"
  let v := v.Check (decide (comic.Year ≥ 1888)) "year" "must be greater than 1888"
  let v := v.Check (decide (comic.Year ≤ nowYear)) "year" "must not be in the future"
  let v := v.Check (comic.Volumes != 0) "volumes" "must be provided"
  let v := v.Check (decide (comic.Volumes > 0)) "volumes" "must be a positive integer"
  let v := v.Check (comic.Genres != none) "genres" "must be provided"
  let v := v.Check (decide (sliceLen comic.Genres ≥ 1)) "genres" "must contain at least 1 genre"
  let v := v.Check (decide (sliceLen comic.Genres ≤ 5)) "genres" "must not contain more than 5 genres"
  let v := v.Check (Unique comic.Genres) "genres" "must not contain duplicate values"
  v

/-! ## UTF-8 (`unicode/utf8`), as used by `strconv.Quote` and `strconv.Unquote` -/

/-- The rune `utf8.RuneError`, U+FFFD. -/
def RuneError : Nat := 0xFFFD

/-- The function `utf8.ValidRune`: below the surrogates, or above them up to U+10FFFF. -/
def ValidRune (r : Nat) : Bool :=
  decide (r < 0xD800) || (decide (0xDFFF < r) && decide (r ≤ 0x10FFFF))

/-- The width `first[s0] & 7` of the encoding a lead byte `0xC2 ≤ s0 ≤ 0xF4` starts. -/
def leadSize (s0 : Nat) : Nat := if s0 < 0xE0 then 2 else if s0 < 0xF0 then 3 else 4

/-- The lower bound `acceptRanges[first[s0] >> 4].lo` on the byte after the lead byte `s0`. -/
def acceptLo (s0 : Nat) : Nat := if s0 = 0xE0 then 0xA0 else if s0 = 0xF0 then 0x90 else 0x80

/-- The upper bound `acceptRanges[first[s0] >> 4].hi` on the byte after the lead byte `s0`. -/
def acceptHi (s0 : Nat) : Nat := if s0 = 0xED then 0x9F else if s0 = 0xF4 then 0x8F else 0xBF

/-- The function `utf8.DecodeRuneInString`: the first rune of `s` and its width in
bytes; `(RuneError, 0)` for the empty string and `(RuneError, 1)` for an
invalid encoding. The lead-byte table `first` is written out as comparisons;
`b % 64` is `b & 0x3F`. -/
def DecodeRuneInString (s : List Nat) : Nat × Nat :=
  match s with
  | [] => (RuneError, 0)
  | s0 :: rest =>
    if s0 < 0x80 then (s0, 1)
    else if s0 < 0xC2 ∨ 0xF4 < s0 then (RuneError, 1)
    else if rest.length + 1 < leadSize s0 then (RuneError, 1)
    else
      match rest with
      | [] => (RuneError, 1)
      | s1 :: rest1 =>
        if s1 < acceptLo s0 ∨ acceptHi s0 < s1 then (RuneError, 1)
        else if leadSize s0 ≤ 2 then ((s0 % 32) * 64 + s1 % 64, 2)
        else
          match rest1 with
          | [] => (RuneError, 1)
          | s2 :: rest2 =>
            if s2 < 0x80 ∨ 0xBF < s2 then (RuneError, 1)
            else if leadSize s0 ≤ 3 then ((s0 % 16) * 4096 + (s1 % 64) * 64 + s2 % 64, 3)
            else
              match rest2 with
              | [] => (RuneError, 1)
              | s3 :: _ =>
                if s3 < 0x80 ∨ 0xBF < s3 then (RuneError, 1)
                else ((s0 % 8) * 262144 + (s1 % 64) * 4096 + (s2 % 64) * 64 + s3 % 64, 4)

/-- The loop of `utf8.ValidString`: every position decodes to something other than
an invalid encoding. One unit of fuel is spent per rune. -/
def ValidStringLoop : Nat → List Nat → Bool
  | _, [] => true
  | 0, _ :: _ => false
  | fuel + 1, c :: cs =>
    if c < 0x80 then ValidStringLoop fuel cs
    else
      let d := DecodeRuneInString (c :: cs)
      if d.1 = RuneError ∧ d.2 = 1 then false
      else ValidStringLoop fuel ((c :: cs).drop d.2)

/-- The function `utf8.ValidString`. -/
def ValidString (s : List Nat) : Bool := ValidStringLoop s.length s

/-- The function `utf8.AppendRune` applied to an empty buffer: the UTF-8 encoding
of `r`, U+FFFD standing in for a surrogate or an out-of-range rune. -/
def AppendRune (r : Nat) : List Nat :=
  if r ≤ 0x7F then [r]
  else if r ≤ 0x7FF then [0xC0 + r / 64, 0x80 + r % 64]
  else if r > 0x10FFFF ∨ (0xD800 ≤ r ∧ r ≤ 0xDFFF) then [0xEF, 0xBF, 0xBD]
  else if r ≤ 0xFFFF then [0xE0 + r / 4096, 0x80 + (r / 64) % 64, 0x80 + r % 64]
  else [0xF0 + r / 262144, 0x80 + (r / 4096) % 64, 0x80 + (r / 64) % 64, 0x80 + r % 64]

/-! ## `strconv.Quote` -/

/-- The digit `"0123456789abcdef"[n]`. -/
def lowerhex (n : Nat) : Nat := if n < 10 then 48 + n else 87 + n

/-- The function `strconv.IsPrint`. The Latin-1 range is decided in the code;
`table` stands for the lookup in the Unicode tables for runes above U+00FF. -/
def IsPrint (table : Nat → Bool) (r : Nat) : Bool :=
  if r ≤ 0xFF then
    if 0x20 ≤ r ∧ r ≤ 0x7E then true
    else if 0xA1 ≤ r then r != 0xAD
    else false
  else table r

/-- The function `appendEscapedRune` of `strconv` with `ASCIIonly` and
`graphicOnly` false: the bytes written for the rune `r`. -/
def appendEscapedRune (table : Nat → Bool) (r quote : Nat) : List Nat :=
  if r = quote ∨ r = 92 then [92, r]
  else if IsPrint table r then AppendRune r
  else if r = 7 then [92, 97]
  else if r = 8 then [92, 98]
  else if r = 12 then [92, 102]
  else if r = 10 then [92, 110]
  else if r = 13 then [92, 114]
  else if r = 9 then [92, 116]
  else if r = 11 then [92, 118]
  else if r < 32 ∨ r = 0x7F then [92, 120, lowerhex (r / 16 % 16), lowerhex (r % 16)]
  else
    let r' := if ValidRune r then r else 0xFFFD
    if r' < 0x10000 then
      [92, 117, lowerhex (r' / 4096 % 16), lowerhex (r' / 256 % 16), lowerhex (r' / 16 % 16),
        lowerhex (r' % 16)]
    else
      [92, 85, lowerhex (r' / 268435456 % 16), lowerhex (r' / 16777216 % 16),
        lowerhex (r' / 1048576 % 16), lowerhex (r' / 65536 % 16), lowerhex (r' / 4096 % 16),
        lowerhex (r' / 256 % 16), lowerhex (r' / 16 % 16), lowerhex (r' % 16)]

/-- The loop of `appendQuotedWith`: one rune of `s` per unit of fuel. -/
def appendQuotedLoop (table : Nat → Bool) (quote : Nat) : Nat → List Nat → List Nat
  | _, [] => []
  | 0, _ :: _ => []
  | fuel + 1, c :: cs =>
    let d := if c ≥ 0x80 then DecodeRuneInString (c :: cs) else (c, 1)
    if d.2 = 1 ∧ d.1 = RuneError then
      [92, 120, lowerhex (c / 16 % 16), lowerhex (c % 16)]
        ++ appendQuotedLoop table quote fuel cs
    else appendEscapedRune table d.1 quote ++ appendQuotedLoop table quote fuel ((c :: cs).drop d.2)

/-- The function `strconv.Quote`: a double-quoted Go string literal for `s`. -/
def Quote (table : Nat → Bool) (s : List Nat) : List Nat :=
  [34] ++ appendQuotedLoop table 34 s.length s ++ [34]

/-! ## `strconv.Unquote` -/

/-- The function `index` of `strconv` (`strings.IndexByte`): the first position of
`c`, `none` for Go's `-1`. -/
def indexByte (s : List Nat) (c : Nat) : Option Nat :=
  match s with
  | [] => none
  | b :: bs => if b = c then some 0 else (indexByte bs c).map (· + 1)

/-- The function `contains` of `strconv`. -/
def contains (s : List Nat) (c : Nat) : Bool := (indexByte s c).isSome

/-- The function `unhex` of `strconv`. -/
def unhex (b : Nat) : Option Nat :=
  if 48 ≤ b ∧ b ≤ 57 then some (b - 48)
  else if 97 ≤ b ∧ b ≤ 102 then some (b - 97 + 10)
  else if 65 ≤ b ∧ b ≤ 70 then some (b - 65 + 10)
  else none

/-- The hexadecimal loop of `UnquoteChar`: `n` digits read from `s` onto `v`. -/
def hexValue : Nat → List Nat → Nat → Option (Nat × List Nat)
  | 0, s, v => some (v, s)
  | _ + 1, [], _ => none
  | n + 1, c :: s, v =>
    match unhex c with
    | none => none
    | some x => hexValue n s (v * 16 + x)

/-- The escapes `\x`, `\u` and `\U` of `UnquoteChar`: `c1` is the letter and `s2`
what follows it. A `\U` escape has eight digits, which fit 32 bits; both the
negative `int32` values and the values above U+10FFFF fail `ValidRune`. -/
def unquoteHex (c1 : Nat) (s2 : List Nat) : Option (Nat × Bool × List Nat) :=
  let n := if c1 = 120 then 2 else if c1 = 117 then 4 else 8
  match hexValue n s2 0 with
  | none => none
  | some (v, tail) =>
    if c1 = 120 then some (v, false, tail)
    else if ValidRune v then some (v, true, tail)
    else none

/-- The octal escape of `UnquoteChar`: `c1` is the first digit and `s2` what
follows it. -/
def unquoteOctal (c1 : Nat) (s2 : List Nat) : Option (Nat × Bool × List Nat) :=
  match s2 with
  | [] => none
  | [_] => none
  | x1 :: x2 :: tail =>
    if 48 ≤ x1 ∧ x1 ≤ 55 ∧ 48 ≤ x2 ∧ x2 ≤ 55 then
      let v := ((c1 - 48) * 8 + (x1 - 48)) * 8 + (x2 - 48)
      if v > 255 then none else some (v, false, tail)
    else none

/-- The hard case of `UnquoteChar`, a backslash followed by `c1` and then `s2`. -/
def unquoteEscape (c1 : Nat) (s2 : List Nat) (quote : Nat) : Option (Nat × Bool × List Nat) :=
  if c1 = 97 then some (7, false, s2)
  else if c1 = 98 then some (8, false, s2)
  else if c1 = 102 then some (12, false, s2)
  else if c1 = 110 then some (10, false, s2)
  else if c1 = 114 then some (13, false, s2)
  else if c1 = 116 then some (9, false, s2)
  else if c1 = 118 then some (11, false, s2)
  else if c1 = 120 ∨ c1 = 117 ∨ c1 = 85 then unquoteHex c1 s2
  else if 48 ≤ c1 ∧ c1 ≤ 55 then unquoteOctal c1 s2
  else if c1 = 92 then some (92, false, s2)
  else if c1 = 39 ∨ c1 = 34 then
    if c1 ≠ quote then none else some (c1, false, s2)
  else none

/-- The function `strconv.UnquoteChar`: value, multibyte flag and tail, `none` for
`ErrSyntax`. -/
def UnquoteChar (s : List Nat) (quote : Nat) : Option (Nat × Bool × List Nat) :=
  match s with
  | [] => none
  | c :: rest =>
    if c = quote ∧ (quote = 39 ∨ quote = 34) then none
    else if c ≥ 0x80 then
      let d := DecodeRuneInString s
      some (d.1, true, s.drop d.2)
    else if c ≠ 92 then some (c, false, rest)
    else
      match rest with
      | [] => none
      | c1 :: s2 => unquoteEscape c1 s2 quote

/-- The escape-processing loop of `unquote`: the buffer and what is left of the
input when the loop ends, `none` for `ErrSyntax`. Every round consumes at
least one byte, and one unit of fuel. -/
def unquoteLoop (quote : Nat) : Nat → List Nat → List Nat → Option (List Nat × List Nat)
  | 0, _, _ => none
  | fuel + 1, inp, buf =>
    match inp with
    | [] => some (buf, inp)
    | c :: _ =>
      if c = quote then some (buf, inp)
      else
        match UnquoteChar inp quote with
        | none => none
        | some (r, multibyte, rem) =>
          if c = 10 then none
          else
            let buf' := if r < 0x80 ∨ multibyte = false then buf ++ [r % 256] else buf ++ AppendRune r
            if quote = 39 then some (buf', rem) else unquoteLoop quote fuel rem buf'

/-- The function `unquote` of `strconv` with `unescape` true: the unquoted text
and the rest of the input, `none` for `ErrSyntax`. -/
def unquote (inp : List Nat) : Option (List Nat × List Nat) :=
  match inp with
  | [] => none
  | [_] => none
  | quote :: rest =>
    match indexByte rest quote with
    | none => none
    | some e =>
      let stop := e + 2
      let inner := (inp.take (stop - 1)).drop 1
      if quote = 96 then some (inner.filter (fun b => b != 13), inp.drop stop)
      else if quote = 34 ∨ quote = 39 then
        let plain := !contains (inp.take stop) 92 && !contains (inp.take stop) 10
        let valid :=
          if quote = 34 then ValidString inner
          else
            let d := DecodeRuneInString inner
            decide (1 + d.2 + 1 = stop) && (d.1 != RuneError || d.2 != 1)
        if plain && valid then some (inner, inp.drop stop)
        else
          match unquoteLoop quote (rest.length + 1) rest [] with
          | none => none
          | some (buf, left) =>
            match left with
            | [] => none
            | c :: tail => if c = quote then some (buf, tail) else none
      else none

/-- The function `strconv.Unquote`; `none` is `ErrSyntax`. -/
def Unquote (s : List Nat) : Option (List Nat) :=
  match unquote s with
  | some (out, []) => some out
  | _ => none

/-! ## `strings.Split`, `strconv.ParseInt`, `fmt.Sprintf` -/

/-- The function `strings.Split(s, sep)` for a separator of one byte, as in the call
`strings.Split(unquotedJSONValue, " ")`. -/
def Split (s : List Nat) (sep : Nat) : List (List Nat) :=
  match s with
  | [] => [[]]
  | c :: cs =>
    if c = sep then [] :: Split cs sep
    else
      match Split cs sep with
      | [] => [[c]]
      | p :: ps => (c :: p) :: ps

/-- The two errors of `strconv.NumError` the code can meet. -/
inductive NumErr where
  | ErrSyntax
  | ErrRange
  deriving DecidableEq, Repr

/-- The digit loop of `strconv.ParseUint`; `n` is a `uint64`. -/
def parseUintLoop (base cutoff maxVal : Nat) : List Nat → Nat → Nat × Option NumErr
  | [], n => (n, none)
  | c :: cs, n =>
    let lower := c ||| 32
    let d : Option Nat :=
      if 48 ≤ c ∧ c ≤ 57 then some (c - 48)
      else if 97 ≤ lower ∧ lower ≤ 122 then some (lower - 97 + 10)
      else none
    match d with
    | none => (0, some NumErr.ErrSyntax)
    | some d =>
      if d ≥ base then (0, some NumErr.ErrSyntax)
      else if n ≥ cutoff then (maxVal, some NumErr.ErrRange)
      else
        let n' := (n * base) % 2 ^ 64
        let n1 := (n' + d) % 2 ^ 64
        if n1 < n' ∨ n1 > maxVal then (maxVal, some NumErr.ErrRange)
        else parseUintLoop base cutoff maxVal cs n1

/-- The function `strconv.ParseUint` for an explicit base `2 ≤ base ≤ 36` and
`1 ≤ bitSize ≤ 64` (the prefix detection of base 0 is not needed by the call
`ParseInt(parts[0], 10, 32)`). -/
def ParseUint (s : List Nat) (base bitSize : Nat) : Nat × Option NumErr :=
  if s = [] then (0, some NumErr.ErrSyntax)
  else parseUintLoop base ((2 ^ 64 - 1) / base + 1) (2 ^ bitSize - 1) s 0

/-- The function `strconv.ParseInt` for an explicit base and bit size. -/
def ParseInt (s : List Nat) (base bitSize : Nat) : Int × Option NumErr :=
  match s with
  | [] => (0, some NumErr.ErrSyntax)
  | c :: rest =>
    let neg := decide (c = 45)
    let s' := if c = 43 ∨ c = 45 then rest else s
    let r := ParseUint s' base bitSize
    if r.2 = some NumErr.ErrSyntax then (0, r.2)
    else
      let cutoff : Nat := 2 ^ (bitSize - 1)
      if neg = false ∧ r.1 ≥ cutoff then ((cutoff : Int) - 1, some NumErr.ErrRange)
      else if neg = true ∧ r.1 > cutoff then (-(cutoff : Int), some NumErr.ErrRange)
      else (if neg then -(r.1 : Int) else (r.1 : Int), none)

/-- The digit `"0123456789abcdefghijklmnopqrstuvwxyz"[d]` of `strconv`. -/
def digitByte (d : Nat) : Nat := if d < 10 then 48 + d else 87 + d

/-- The digit loop of `strconv.formatBits`: the digits of `u` in `base` are put
in front of `acc`, least significant first; one digit per unit of fuel. -/
def formatBits (base : Nat) : Nat → Nat → List Nat → List Nat
  | 0, _, acc => acc
  | fuel + 1, u, acc =>
    if u < base then digitByte u :: acc
    else formatBits base fuel (u / base) (digitByte (u % base) :: acc)

/-- The bytes of `strconv.FormatInt(i, base)` for `2 ≤ base ≤ 36`: the digits of
the magnitude, after `-` when `i` is negative. -/
def formatInt (i : Int) (base : Nat) : List Nat :=
  if i < 0 then 45 :: formatBits base (i.natAbs + 1) i.natAbs []
  else formatBits base (i.natAbs + 1) i.natAbs []

/-- The function `strconv.FormatInt` as a string. -/
def FormatInt (i : Int) (base : Nat) : String :=
  String.mk ((formatInt i base).map Char.ofNat)

/-- The verb `%d` of `fmt.Sprintf`: the decimal digits of `v`, after `-` when `v` is negative. -/
def fmtInteger (v : Int) : List Nat := formatInt v 10

/-- The number a run of decimal digits stands for, read onto `n`. -/
def decVal (ds : List Nat) (n : Nat) : Nat := ds.foldl (fun n c => n * 10 + (c - 48)) n

/-- The texts that are a base-10 signed 32-bit integer, with the integer they
stand for: a non-empty run of decimal digits, after an optional `+` or `-`,
whose value lies between `-2^31` and `2^31 - 1`. -/
def IsInt32Literal (s : List Nat) (n : Int) : Prop :=
  ∃ ds : List Nat, ds ≠ [] ∧ (∀ c ∈ ds, 48 ≤ c ∧ c ≤ 57) ∧
    (((s = ds ∨ s = 43 :: ds) ∧ n = (decVal ds 0 : Int) ∧ decVal ds 0 ≤ 2147483647) ∨
      (s = 45 :: ds ∧ n = -(decVal ds 0 : Int) ∧ decVal ds 0 ≤ 2147483648))

/-- The bytes of `" Volumes"`. -/
def spaceVolumes : List Nat := [32, 86, 111, 108, 117, 109, 101, 115]

/-- The bytes of `"Volumes"`. -/
def wordVolumes : List Nat := [86, 111, 108, 117, 109, 101, 115]

/-! ## The Volumes codec (`internal/data/volumes.go`) -/

/-- Go's conversion to `int32`. -/
def int32 (x : Int) : Int := (x + 2 ^ 31) % 2 ^ 32 - 2 ^ 31

/-- The method `Volumes.MarshalJSON`, lines 14-20: the bytes and the error; `table`
is the Unicode table behind `strconv.IsPrint`. -/
def MarshalJSON (table : Nat → Bool) (v : Int) : List Nat × Option GoError :=
  let jsonValue := fmtInteger v ++ spaceVolumes
  let quotedJSONValue := Quote table jsonValue
  (quotedJSONValue, none)

/-- The method `Volumes.UnmarshalJSON`, lines 22-41: the value of `*v` afterwards
and the error. -/
def UnmarshalJSON (v : Int) (jsonValue : List Nat) : Int × Option GoError :=
  match Unquote jsonValue with
  | none => (v, some GoError.ErrInvalidVolumeFormat)
  | some unquotedJSONValue =>
    let parts := Split unquotedJSONValue 32
    if parts.length ≠ 2 ∨ parts.getD 1 [] ≠ wordVolumes then (v, some GoError.ErrInvalidVolumeFormat)
    else
      let r := ParseInt (parts.getD 0 []) 10 32
      if r.2 ≠ none then (v, some GoError.ErrInvalidVolumeFormat)
      else (int32 r.1, none)

/-- The reading "once its outer double quotes are removed" of a token: the text
between a leading and a trailing `"`, `none` when the token has not both. -/
def stripOuterQuotes (token : List Nat) : Option (List Nat) :=
  match token with
  | [] => none
  | q :: rest =>
    if q = 34 ∧ rest.getLast? = some 34 then some rest.dropLast else none

/-- The JSON string `"5\u0020Volumes"`, whose space is written as an escape. -/
def escapedToken : List Nat :=
  [34, 53, 92, 117, 48, 48, 50, 48, 86, 111, 108, 117, 109, 101, 115, 34]

/-- The text of `escapedToken` between its outer quotes, `5\u0020Volumes`. -/
def escapedText : List Nat :=
  [53, 92, 117, 48, 48, 50, 48, 86, 111, 108, 117, 109, 101, 115]

/-- The token `5 Volumes` between back quotes, a raw Go string literal. -/
def backquotedToken : List Nat :=
  [96, 53, 32, 86, 111, 108, 117, 109, 101, 115, 96]

/-- The bytes of an ASCII text. -/
def ascii (s : String) : List Nat := s.toList.map Char.toNat

/-! ## The record store (`internal/data/comics.go`) -/

/-- A row of table `comics` without its key: the columns `created_at`, `title`,
`year`, `volumes`, `genres`, `version`. -/
structure Row where
  CreatedAt : Int
  Title : String
  Year : Int
  Volumes : Int
  Genres : Option (List String)
  Version : Int
  deriving DecidableEq, Repr

/-- The database behind `ComicModel.DB`: table `comics` as a map from the primary
key `id` to the row, and the number of statements executed so far. -/
structure DB where
  comics : Int → Option Row
  statements : Nat

/-- The comic a row is scanned into. -/
def Row.toComic (id : Int) (r : Row) : Comic :=
  { ID := id, CreatedAt := r.CreatedAt, Title := r.Title, Year := r.Year, Volumes := r.Volumes,
    Genres := r.Genres, Version := r.Version }

/-- The statement of `Get`, `SELECT … FROM comics WHERE id = $1`, with its `Scan`:
the comic read, or `sql.ErrNoRows` when no row matches. -/
def queryRowByID (db : DB) (id : Int) : DB × Except GoError Comic :=
  let db' : DB := { db with statements := db.statements + 1 }
  match db.comics id with
  | none => (db', Except.error GoError.ErrNoRows)
  | some r => (db', Except.ok (r.toComic id))

/-- The method `ComicModel.Get`, lines 42-80: the database, the comic (`none` is
the nil pointer) and the error. -/
def Get (db : DB) (id : Int) : DB × Option Comic × Option GoError :=
  if id < 1 then (db, none, some GoError.RecordNotFoundError)
  else
    match queryRowByID db id with
    | (db', Except.error err) =>
      if err = GoError.ErrNoRows then (db', none, some GoError.ErrNoRows)
      else (db', none, some err)
    | (db', Except.ok comic) => (db', some comic, none)

/-- Modelled from the spec: the `version` column is the "32-bit counter" of §3
(the table definition is not among the sources), a PostgreSQL `integer`, whose
largest value this is; an `UPDATE` computing a larger one fails with
"integer out of range" and changes nothing. -/
def maxInt32 : Int := 2147483647

/-- The statement of `Update`, `UPDATE comics SET title = $1, year = $2,
volumes = $3, genres = $4, version = version + 1 WHERE id = $5 AND version = $6
RETURNING version`, with its `Scan`: the returned version, or `sql.ErrNoRows`
when no row matches. -/
def queryRowUpdate (db : DB) (comic : Comic) : DB × Except GoError Int :=
  let db' : DB := { db with statements := db.statements + 1 }
  match db.comics comic.ID with
  | none => (db', Except.error GoError.ErrNoRows)
  | some r =>
    if r.Version ≠ comic.Version then (db', Except.error GoError.ErrNoRows)
    else if r.Version + 1 > maxInt32 then
      (db', Except.error (GoError.other "pq: integer out of range"))
    else
      let r' : Row :=
        { CreatedAt := r.CreatedAt, Title := comic.Title, Year := comic.Year,
          Volumes := comic.Volumes, Genres := comic.Genres, Version := r.Version + 1 }
      ({ comics := fun i => if i = comic.ID then some r' else db.comics i,
         statements := db.statements + 1 }, Except.ok r'.Version)

/-- The method `ComicModel.Update`, lines 136-167: the database, the comic behind
the pointer afterwards, and the error. -/
def Update (db : DB) (comic : Comic) : DB × Comic × Option GoError :=
  match queryRowUpdate db comic with
  | (db', Except.error err) =>
    if err = GoError.ErrNoRows then (db', comic, some GoError.EditConflictError)
    else (db', comic, some err)
  | (db', Except.ok version) => (db', { comic with Version := version }, none)

/-- The statement of `Delete`, `DELETE FROM comics WHERE id = $1`: the database
and `RowsAffected`. -/
def execDelete (db : DB) (id : Int) : DB × Nat :=
  ({ comics := fun i => if i = id then none else db.comics i,
     statements := db.statements + 1 },
    if (db.comics id).isSome then 1 else 0)

/-- The method `ComicModel.Delete`, lines 169-197. -/
def Delete (db : DB) (id : Int) : DB × Option GoError :=
  if id < 1 then (db, some GoError.RecordNotFoundError)
  else
    let r := execDelete db id
    if r.2 = 0 then (r.1, some GoError.RecordNotFoundError)
    else (r.1, none)

/-! ## The handlers (`cmd/api/comics.go`) -/

/-- The struct `Metadata` returned by `GetAll`. -/
structure Metadata where
  CurrentPage : Int
  PageSize : Int
  FirstPage : Int
  LastPage : Int
  TotalRecords : Int
  deriving DecidableEq, Repr

/-- The struct `Filters`; `SortToken` is its field `Sort`. -/
structure Filters where
  Page : Int
  PageSize : Int
  SortToken : String
  SortSafelist : List String
  deriving DecidableEq, Repr

/-- Modelled from the spec: `data.ValidateFilters` (not among the sources);
"`page` in [1,10_000_000], `page_size` in [1,100], and `sort` must be a member
of the caller-supplied safelist". -/
def ValidateFilters (v : Validator) (f : Filters) : Validator :=
  let v := v.Check (decide (f.Page > 0)) "page" "must be greater than zero"
  let v := v.Check (decide (f.Page ≤ 10000000)) "page" "must be a maximum of 10 million"
  let v := v.Check (decide (f.PageSize > 0)) "page_size" "must be greater than zero"
  let v := v.Check (decide (f.PageSize ≤ 100)) "page_size" "must be a maximum of 100"
  let v := v.Check (decide (f.SortToken ∈ f.SortSafelist)) "sort" "invalid sort value"
  v

/-- The value of type `envelope` a handler hands to `writeJSON`. -/
inductive Envelope where
  | comic (c : Comic)
  | comics (metadata : Metadata) (comics : Option (List Comic))
  | empty
  deriving DecidableEq, Repr

/-- A response written to the `http.ResponseWriter`, named after the helper
that writes it. -/
inductive Response where
  | notFound
  | serverError (err : GoError)
  | editConflict
  | badRequest (err : GoError)
  | failedValidation (errors : List (String × String))
  | json (status : Nat) (data : Envelope)
  deriving DecidableEq, Repr

/-- Modelled from the spec: the status a response helper writes (the helpers are
not among the sources); "`NotFound`→404, `EditConflict`→409, validation
failure→422, all other store errors→500", and 400 for a body that cannot be read. -/
def Response.status : Response → Nat
  | Response.notFound => 404
  | Response.serverError _ => 500
  | Response.editConflict => 409
  | Response.badRequest _ => 400
  | Response.failedValidation _ => 422
  | Response.json status _ => status

/-- The helper `app.writeJSON` (not among the sources) through its outcome
`jsonErr`: `nil` once the response is written, an error when the data cannot
be encoded and nothing is written. -/
def writeJSON (jsonErr : Option GoError) (status : Nat) (data : Envelope) :
    List Response × Option GoError :=
  match jsonErr with
  | none => ([Response.json status data], none)
  | some err => ([], some err)

/-- The handler `listComicsHandler`, lines 13-48, as the list of responses it
writes. `v` is the validator after the two `readInt` calls, `filters` the
filters read from the query string, `got` what `app.models.Comics.GetAll`
returns. -/
def listComicsHandler (v : Validator) (filters : Filters)
    (got : Option (List Comic) × Metadata × Option GoError) (jsonErr : Option GoError) :
    List Response :=
  let v := ValidateFilters v filters
  if !v.Valid then [Response.failedValidation v.Errors]
  else
    let comics := got.1
    let metadata := got.2.1
    let err := got.2.2
    let w1 := match err with
      | some e => [Response.serverError e]
      | none => []
    let r := writeJSON jsonErr 200 (Envelope.comics metadata comics)
    let w2 := match r.2 with
      | some e => [Response.serverError e]
      | none => []
    w1 ++ r.1 ++ w2

/-- The handler `showComicHandler`, lines 93-117: the database afterwards and the
responses written. `idParam` is what `app.readIDParam` returns; `http.NotFound`
and `app.notFoundResponse` both write the 404 response. `Get` never returns a
nil comic without an error (`Get_cases`), so the branch for it is never taken. -/
def showComicHandler (db : DB) (idParam : Except GoError Int) (jsonErr : Option GoError) :
    DB × List Response :=
  match idParam with
  | Except.error _ => (db, [Response.notFound])
  | Except.ok id =>
    match Get db id with
    | (db', _, some err) =>
      if err = GoError.RecordNotFoundError then (db', [Response.notFound])
      else (db', [Response.serverError err])
    | (db', none, none) => (db', [Response.serverError (GoError.other "nil comic")])
    | (db', some comic, none) =>
      let r := writeJSON jsonErr 200 (Envelope.comic comic)
      match r.2 with
      | some e => (db', r.1 ++ [Response.serverError e])
      | none => (db', r.1)

/-- The anonymous struct `input` of `updateComicHandler` after `readJSON`: a nil
pointer or nil slice is `none`. -/
structure UpdateInput where
  Title : Option String
  Year : Option Int
  Volumes : Option Int
  Genres : Option (List String)
  deriving DecidableEq, Repr

/-- What a run of `updateComicHandler` does: the database afterwards, the
responses written, the comic handed to `ValidateComic` and the comic handed to
`ComicModel.Update` (`none` when the call is not reached). -/
structure UpdateRun where
  db : DB
  responses : List Response
  validated : Option Comic
  updated : Option Comic

/-- The handler `updateComicHandler`, lines 119-197. `idParam` is what
`app.readIDParam` returns, `expected` the header `X-Expected-Version`, `body`
what `app.readJSON` leaves in `input`, `nowYear` the clock's year. `Get` never
returns a nil comic without an error (`Get_cases`), so the branch for it is
never taken. -/
def updateComicHandler (db : DB) (idParam : Except GoError Int) (expected : String)
    (body : Except GoError UpdateInput) (nowYear : Int) (jsonErr : Option GoError) : UpdateRun :=
  match idParam with
  | Except.error _ => ⟨db, [Response.notFound], none, none⟩
  | Except.ok id =>
    match Get db id with
    | (db1, _, some err) =>
      if err = GoError.RecordNotFoundError then ⟨db1, [Response.notFound], none, none⟩
      else ⟨db1, [Response.serverError err], none, none⟩
    | (db1, none, none) => ⟨db1, [Response.serverError (GoError.other "nil comic")], none, none⟩
    | (db1, some comic, none) =>
      if expected ≠ "" ∧ FormatInt comic.Version 32 ≠ expected then
        ⟨db1, [Response.editConflict], none, none⟩
      else
        match body with
        | Except.error err => ⟨db1, [Response.badRequest err], none, none⟩
        | Except.ok input =>
          let comic := match input.Title with
            | some t => { comic with Title := t }
            | none => comic
          let comic := match input.Year with
            | some y => { comic with Year := y }
            | none => comic
          let comic := match input.Volumes with
            | some n => { comic with Volumes := n }
            | none => comic
          let comic := match input.Genres with
            | some g => { comic with Genres := some g }
            | none => comic
          let v := ValidateComic nowYear Validator.New comic
          if !v.Valid then ⟨db1, [Response.failedValidation v.Errors], some comic, none⟩
          else
            match Update db1 comic with
            | (db2, _, some err) =>
              if err = GoError.EditConflictError then
                ⟨db2, [Response.editConflict], some comic, some comic⟩
              else ⟨db2, [Response.serverError err], some comic, some comic⟩
            | (db2, comic', none) =>
              let r := writeJSON jsonErr 200 (Envelope.comic comic')
              match r.2 with
              | some e => ⟨db2, r.1 ++ [Response.serverError e], some comic, some comic⟩
              | none => ⟨db2, r.1, some comic, some comic⟩

/-! ## Sample data -/

/-- A comic that passes validation, at version 3. -/
def sampleComic : Comic :=
  { ID := 7, CreatedAt := 1700000000, Title := "Akira", Year := 1988, Volumes := 6,
    Genres := some ["sci-fi", "action"], Version := 3 }

/-- The row of `sampleComic`. -/
def sampleRow : Row :=
  { CreatedAt := 1700000000, Title := "Akira", Year := 1988, Volumes := 6,
    Genres := some ["sci-fi", "action"], Version := 3 }

/-- A database whose only row is `sampleRow` under id 7. -/
def sampleDB : DB :=
  { comics := fun i => if i = 7 then some sampleRow else none, statements := 0 }

/-- A database whose only row, under id 7, is at version `version`. -/
def dbAtVersion (version : Int) : DB :=
  { comics := fun i => if i = 7 then some { sampleRow with Version := version } else none,
    statements := 0 }

/-- The comic of id 7 at the largest `int32` version. -/
def maxVersionComic : Comic := { sampleComic with Version := 2147483647 }

/-- A comic whose only genre is the empty string. -/
def emptyGenreComic : Comic := { sampleComic with Genres := some [""] }

/-- A request body that changes the year only. -/
def yearOnlyInput : UpdateInput :=
  { Title := none, Year := some 1989, Volumes := none, Genres := none }

/-- The comic the handler builds from `sampleComic` and `yearOnlyInput`. -/
def mergedComic : Comic := { sampleComic with Year := 1989 }

/-- Filters with a page size beyond 100. -/
def badFilters : Filters :=
  { Page := 1, PageSize := 101, SortToken := "id", SortSafelist := ["id", "title"] }

/-- Filters that pass `ValidateFilters`. -/
def sampleFilters : Filters :=
  { Page := 1, PageSize := 20, SortToken := "id",
    SortSafelist := ["id", "title", "year", "volumes", "-id", "-title", "-year", "-volumes"] }

/-- The zero value `Metadata{}`. -/
def emptyMetadata : Metadata :=
  { CurrentPage := 0, PageSize := 0, FirstPage := 0, LastPage := 0, TotalRecords := 0 }

/-! ## Theorems: the validation gate -/

theorem Validator.valid_iff (v : Validator) : v.Valid = true ↔ v.Errors = [] := by
  cases v with
  | mk es => cases es <;> simp [Validator.Valid]

theorem Validator.hasKey_nil (v : Validator) (key : String) (h : v.Errors = []) :
    v.hasKey key = false := by
  simp [Validator.hasKey, h]

theorem Validator.Check_errors_nil (v : Validator) (ok : Bool) (key message : String) :
    (v.Check ok key message).Errors = [] ↔ v.Errors = [] ∧ ok = true := by
  cases ok with
  | true => simp [Validator.Check]
  | false =>
    simp only [Validator.Check, Validator.AddError, Bool.false_eq_true, if_false, and_false,
      iff_false]
    by_cases hk : v.hasKey key = true
    · rw [if_pos hk]
      intro hnil
      rw [Validator.hasKey_nil v key hnil] at hk
      exact Bool.false_ne_true hk
    · rw [if_neg hk]
      simp

theorem Validator.hasKey_Check_of_hasKey (v : Validator) (ok : Bool) (key k message : String)
    (h : v.hasKey k = true) : (v.Check ok key message).hasKey k = true := by
  cases ok with
  | true => simpa [Validator.Check] using h
  | false =>
    simp only [Validator.Check, Validator.AddError, Bool.false_eq_true, if_false]
    by_cases hk : v.hasKey key = true
    · rw [if_pos hk]; exact h
    · rw [if_neg hk]
      simp only [Validator.hasKey, List.any_append, Bool.or_eq_true] at h ⊢
      exact Or.inl h

theorem Validator.hasKey_Check_of_fail (v : Validator) (key message : String) :
    (v.Check false key message).hasKey key = true := by
  simp only [Validator.Check, Validator.AddError, Bool.false_eq_true, if_false]
  by_cases hk : v.hasKey key = true
  · rw [if_pos hk]; exact hk
  · rw [if_neg hk]
    simp [Validator.hasKey]

theorem ValidateComic_errors_nil (Y : Int) (c : Comic) :
    (ValidateComic Y Validator.New c).Errors = [] ↔
      (c.Title ≠ "" ∧ c.Title.utf8ByteSize ≤ 500 ∧ 1888 ≤ c.Year ∧ c.Year ≤ Y ∧ 0 < c.Volumes ∧
        ∃ gs, c.Genres = some gs ∧ 1 ≤ gs.length ∧ gs.length ≤ 5 ∧ gs.Nodup) := by
  simp only [ValidateComic, Validator.Check_errors_nil, Validator.New]
  cases hg : c.Genres with
  | none => simp [sliceLen]
  | some gs =>
    simp only [sliceLen, Unique, true_and, bne_iff_ne, ne_eq, decide_eq_true_eq, ge_iff_le,
      gt_iff_lt, Option.some.injEq, exists_eq_left', not_false_eq_true, reduceCtorEq]
    simp only [and_assoc]
    constructor
    · rintro ⟨h1, h2, _, h4, h5, _, h7, _, h8, h9, h10⟩
      exact ⟨h1, h2, h4, h5, h7, h8, h9, h10⟩
    · rintro ⟨h1, h2, h4, h5, h7, h8, h9, h10⟩
      refine ⟨h1, h2, ?_, h4, h5, ?_, h7, trivial, h8, h9, h10⟩ <;> omega

theorem ValidateComic_year_key (Y : Int) (c : Comic) (h : ¬ (1888 ≤ c.Year ∧ c.Year ≤ Y)) :
    (ValidateComic Y Validator.New c).hasKey "year" = true := by
  simp only [ValidateComic]
  iterate 6 apply Validator.hasKey_Check_of_hasKey
  by_cases h1 : 1888 ≤ c.Year
  · have h2 : ¬ c.Year ≤ Y := fun h2 => h ⟨h1, h2⟩
    rw [decide_eq_false h2]
    exact Validator.hasKey_Check_of_fail _ _ _
  · apply Validator.hasKey_Check_of_hasKey
    have : decide (c.Year ≥ 1888) = false := decide_eq_false h1
    rw [this]
    exact Validator.hasKey_Check_of_fail _ _ _

theorem ValidateComic_genres_key (Y : Int) (c : Comic)
    (h : ¬ ∃ gs, c.Genres = some gs ∧ 1 ≤ gs.length ∧ gs.length ≤ 5 ∧ gs.Nodup) :
    (ValidateComic Y Validator.New c).hasKey "genres" = true := by
  simp only [ValidateComic]
  cases hg : c.Genres with
  | none =>
    iterate 3 apply Validator.hasKey_Check_of_hasKey
    exact Validator.hasKey_Check_of_fail _ _ _
  | some gs =>
    rw [hg] at h
    by_cases h1 : 1 ≤ gs.length
    · by_cases h2 : gs.length ≤ 5
      · have h3 : ¬ gs.Nodup := fun h3 => h ⟨gs, rfl, h1, h2, h3⟩
        have : Unique (some gs) = false := by simp [Unique, h3]
        rw [this]
        exact Validator.hasKey_Check_of_fail _ _ _
      · apply Validator.hasKey_Check_of_hasKey
        have : decide (sliceLen (some gs) ≤ 5) = false := decide_eq_false h2
        rw [this]
        exact Validator.hasKey_Check_of_fail _ _ _
    · iterate 2 apply Validator.hasKey_Check_of_hasKey
      have : decide (sliceLen (some gs) ≥ 1) = false := decide_eq_false h1
      rw [this]
      exact Validator.hasKey_Check_of_fail _ _ _

/-- C6. `ValidateComic`, a function of the comic and the current year `Y` alone,
leaves a fresh validator without errors exactly when the title is non-empty
and at most 500 bytes long, `1888 ≤ year ≤ Y`, `volumes > 0`, and the genres
are a non-nil list of 1 to 5 elements without duplicates; a year outside
`[1888, Y]` (so year 0 and year `Y + 1`) leaves an error keyed "year", and
genres that are nil, empty, more than 5 or repeated leave one keyed "genres". -/
theorem ValidateComic_spec (Y : Int) (c : Comic) :
    ((ValidateComic Y Validator.New c).Valid = true ↔
      (c.Title ≠ "" ∧ c.Title.utf8ByteSize ≤ 500 ∧ 1888 ≤ c.Year ∧ c.Year ≤ Y ∧ 0 < c.Volumes ∧
        ∃ gs, c.Genres = some gs ∧ 1 ≤ gs.length ∧ gs.length ≤ 5 ∧ gs.Nodup)) ∧
    ((c.Year = 0 ∨ c.Year = Y + 1 ∨ ¬ (1888 ≤ c.Year ∧ c.Year ≤ Y)) →
      (ValidateComic Y Validator.New c).hasKey "year" = true) ∧
    ((¬ ∃ gs, c.Genres = some gs ∧ 1 ≤ gs.length ∧ gs.length ≤ 5 ∧ gs.Nodup) →
      (ValidateComic Y Validator.New c).hasKey "genres" = true) := by
  refine ⟨?_, ?_, ValidateComic_genres_key Y c⟩
  · rw [Validator.valid_iff]
    exact ValidateComic_errors_nil Y c
  · intro h
    apply ValidateComic_year_key
    rcases h with h | h | h
    · omega
    · omega
    · exact h

/-- C7, counterexample. A comic whose only genre is the empty string passes
`ValidateComic`. -/
theorem ValidateComic_accepts_empty_genre :
    (ValidateComic 2026 Validator.New emptyGenreComic).Valid = true ∧
      emptyGenreComic.Genres = some [""] := by
  decide

/-- C7, as amended. On every comic that `ValidateComic` passes, the genres are a
list of between 1 and 5 pairwise-distinct strings. -/
theorem ValidateComic_genres_invariant (Y : Int) (c : Comic)
    (h : (ValidateComic Y Validator.New c).Valid = true) :
    ∃ gs, c.Genres = some gs ∧ 1 ≤ gs.length ∧ gs.length ≤ 5 ∧ gs.Nodup := by
  rw [Validator.valid_iff] at h
  exact ((ValidateComic_errors_nil Y c).mp h).2.2.2.2.2

/-! ## Theorems: the fuel of the loops is enough -/

theorem DecodeRuneInString_width (c : Nat) (cs : List Nat) :
    1 ≤ (DecodeRuneInString (c :: cs)).2 ∧ (DecodeRuneInString (c :: cs)).2 ≤ cs.length + 1 := by
  rcases cs with _ | ⟨s1, _ | ⟨s2, _ | ⟨s3, r3⟩⟩⟩ <;> simp only [DecodeRuneInString] <;>
    split_ifs <;> simp

theorem formatBits_fuel (base : Nat) (hb : 2 ≤ base) (f1 f2 u : Nat) (acc : List Nat)
    (h1 : u < f1) (h2 : u < f2) : formatBits base f1 u acc = formatBits base f2 u acc := by
  induction f1 generalizing f2 u acc with
  | zero => omega
  | succ f1 ih =>
    cases f2 with
    | zero => omega
    | succ f2 =>
      simp only [formatBits]
      split
      · rfl
      · rename_i hu
        have hdiv : u / base < u := Nat.div_lt_self (by omega) (by omega)
        exact ih f2 (u / base) _ (by omega) (by omega)

theorem ValidStringLoop_fuel (s : List Nat) (f1 f2 : Nat) (h1 : s.length ≤ f1)
    (h2 : s.length ≤ f2) : ValidStringLoop f1 s = ValidStringLoop f2 s := by
  induction f1 generalizing f2 s with
  | zero =>
    have : s = [] := List.length_eq_zero.mp (by omega)
    subst this
    cases f2 <;> rfl
  | succ f1 ih =>
    cases s with
    | nil => cases f2 <;> rfl
    | cons c cs =>
      cases f2 with
      | zero => simp at h2
      | succ f2 =>
        simp only [List.length_cons, Nat.add_le_add_iff_right] at h1 h2
        have hw := (DecodeRuneInString_width c cs).1
        simp only [ValidStringLoop]
        split
        · exact ih cs f2 h1 h2
        · split
          · rfl
          · apply ih
            · simp only [List.length_drop, List.length_cons]; omega
            · simp only [List.length_drop, List.length_cons]; omega

theorem hexValue_tail (n : Nat) (s : List Nat) (v v' : Nat) (tail : List Nat)
    (h : hexValue n s v = some (v', tail)) : tail.length ≤ s.length := by
  induction n generalizing s v with
  | zero =>
    simp only [hexValue, Option.some.injEq, Prod.mk.injEq] at h
    rw [h.2]
  | succ n ih =>
    cases s with
    | nil => simp [hexValue] at h
    | cons c cs =>
      simp only [hexValue] at h
      split at h
      · simp at h
      · have := ih cs _ h
        simp only [List.length_cons]
        omega

theorem unquoteHex_tail (c1 : Nat) (s2 : List Nat) (r : Nat) (m : Bool) (rem : List Nat)
    (h : unquoteHex c1 s2 = some (r, m, rem)) : rem.length ≤ s2.length := by
  unfold unquoteHex at h
  cases hv : hexValue (if c1 = 120 then 2 else if c1 = 117 then 4 else 8) s2 0 with
  | none =>
    simp only [hv] at h
    cases h
  | some t =>
    obtain ⟨v, tail⟩ := t
    have ht := hexValue_tail _ _ _ _ _ hv
    simp only [hv] at h
    by_cases hx : c1 = 120
    · rw [if_pos hx] at h
      cases h
      exact ht
    · rw [if_neg hx] at h
      by_cases hr : ValidRune v = true
      · rw [if_pos hr] at h
        cases h
        exact ht
      · rw [if_neg hr] at h
        cases h

theorem unquoteOctal_tail (c1 : Nat) (s2 : List Nat) (r : Nat) (m : Bool) (rem : List Nat)
    (h : unquoteOctal c1 s2 = some (r, m, rem)) : rem.length ≤ s2.length := by
  rcases s2 with _ | ⟨x1, _ | ⟨x2, tail⟩⟩
  · cases h
  · cases h
  · simp only [unquoteOctal] at h
    by_cases hd : 48 ≤ x1 ∧ x1 ≤ 55 ∧ 48 ≤ x2 ∧ x2 ≤ 55
    · rw [if_pos hd] at h
      by_cases hv : ((c1 - 48) * 8 + (x1 - 48)) * 8 + (x2 - 48) > 255
      · rw [if_pos hv] at h
        cases h
      · rw [if_neg hv] at h
        cases h
        simp only [List.length_cons]
        omega
    · rw [if_neg hd] at h
      cases h

theorem unquoteEscape_tail (c1 : Nat) (s2 : List Nat) (quote r : Nat) (m : Bool)
    (rem : List Nat) (h : unquoteEscape c1 s2 quote = some (r, m, rem)) :
    rem.length ≤ s2.length := by
  unfold unquoteEscape at h
  by_cases h0 : c1 = 97
  · rw [if_pos h0] at h
    cases h
    exact Nat.le_refl _
  rw [if_neg h0] at h
  by_cases h1 : c1 = 98
  · rw [if_pos h1] at h
    cases h
    exact Nat.le_refl _
  rw [if_neg h1] at h
  by_cases h2 : c1 = 102
  · rw [if_pos h2] at h
    cases h
    exact Nat.le_refl _
  rw [if_neg h2] at h
  by_cases h3 : c1 = 110
  · rw [if_pos h3] at h
    cases h
    exact Nat.le_refl _
  rw [if_neg h3] at h
  by_cases h4 : c1 = 114
  · rw [if_pos h4] at h
    cases h
    exact Nat.le_refl _
  rw [if_neg h4] at h
  by_cases h5 : c1 = 116
  · rw [if_pos h5] at h
    cases h
    exact Nat.le_refl _
  rw [if_neg h5] at h
  by_cases h6 : c1 = 118
  · rw [if_pos h6] at h
    cases h
    exact Nat.le_refl _
  rw [if_neg h6] at h
  by_cases hx : c1 = 120 ∨ c1 = 117 ∨ c1 = 85
  · rw [if_pos hx] at h
    exact unquoteHex_tail c1 s2 r m rem h
  rw [if_neg hx] at h
  by_cases ho : 48 ≤ c1 ∧ c1 ≤ 55
  · rw [if_pos ho] at h
    exact unquoteOctal_tail c1 s2 r m rem h
  rw [if_neg ho] at h
  by_cases hb : c1 = 92
  · rw [if_pos hb] at h
    cases h
    exact Nat.le_refl _
  rw [if_neg hb] at h
  by_cases hq : c1 = 39 ∨ c1 = 34
  · rw [if_pos hq] at h
    by_cases hne : c1 ≠ quote
    · rw [if_pos hne] at h
      cases h
    · rw [if_neg hne] at h
      cases h
      exact Nat.le_refl _
  rw [if_neg hq] at h
  cases h

theorem UnquoteChar_tail (s : List Nat) (quote r : Nat) (m : Bool) (rem : List Nat)
    (h : UnquoteChar s quote = some (r, m, rem)) : rem.length < s.length := by
  cases s with
  | nil => cases h
  | cons c rest =>
    simp only [UnquoteChar] at h
    by_cases hq : c = quote ∧ (quote = 39 ∨ quote = 34)
    · rw [if_pos hq] at h
      cases h
    rw [if_neg hq] at h
    by_cases hc : c ≥ 128
    · rw [if_pos hc] at h
      have hw := (DecodeRuneInString_width c rest).1
      cases h
      simp only [List.length_drop, List.length_cons]
      omega
    rw [if_neg hc] at h
    by_cases hb : c ≠ 92
    · rw [if_pos hb] at h
      cases h
      simp
    rw [if_neg hb] at h
    cases rest with
    | nil => cases h
    | cons c1 s2 =>
      have := unquoteEscape_tail c1 s2 quote r m rem h
      simp only [List.length_cons]
      omega

theorem unquoteLoop_fuel (quote : Nat) (inp buf : List Nat) (f1 f2 : Nat)
    (h1 : inp.length < f1) (h2 : inp.length < f2) :
    unquoteLoop quote f1 inp buf = unquoteLoop quote f2 inp buf := by
  induction f1 generalizing f2 inp buf with
  | zero => omega
  | succ f1 ih =>
    cases f2 with
    | zero => omega
    | succ f2 =>
      cases inp with
      | nil => rfl
      | cons c cs =>
        simp only [unquoteLoop]
        split
        · rfl
        · cases hu : UnquoteChar (c :: cs) quote with
          | none => rfl
          | some t =>
            obtain ⟨r, m, rem⟩ := t
            have ht := UnquoteChar_tail _ _ _ _ _ hu
            simp only [List.length_cons] at ht h1 h2
            simp only []
            split
            · rfl
            · split
              · rfl
              · exact ih rem _ f2 (by omega) (by omega)

theorem appendQuotedLoop_fuel (table : Nat → Bool) (quote : Nat) (s : List Nat) (f1 f2 : Nat)
    (h1 : s.length ≤ f1) (h2 : s.length ≤ f2) :
    appendQuotedLoop table quote f1 s = appendQuotedLoop table quote f2 s := by
  induction f1 generalizing f2 s with
  | zero =>
    have : s = [] := List.length_eq_zero.mp (by omega)
    subst this
    cases f2 <;> rfl
  | succ f1 ih =>
    cases s with
    | nil => cases f2 <;> rfl
    | cons c cs =>
      cases f2 with
      | zero => simp at h2
      | succ f2 =>
        simp only [List.length_cons, Nat.add_le_add_iff_right] at h1 h2
        have hw := (DecodeRuneInString_width c cs).1
        have hdrop : ∀ n, 1 ≤ n → ((c :: cs).drop n).length ≤ cs.length := by
          intro n hn
          simp only [List.length_drop, List.length_cons]
          omega
        simp only [appendQuotedLoop]
        rw [ih cs f2 h1 h2]
        by_cases hc : c ≥ 128
        · simp only [if_pos hc]
          rw [ih _ f2 (Nat.le_trans (hdrop _ hw) h1) (Nat.le_trans (hdrop _ hw) h2)]
        · simp only [if_neg hc]
          rw [ih _ f2 (Nat.le_trans (hdrop 1 (Nat.le_refl 1)) h1)
            (Nat.le_trans (hdrop 1 (Nat.le_refl 1)) h2)]

/-! ## Theorems: decimal formatting and parsing -/

theorem formatBits_acc (base : Nat) (fuel u : Nat) (acc : List Nat) :
    formatBits base fuel u acc = formatBits base fuel u [] ++ acc := by
  induction fuel generalizing u acc with
  | zero => simp [formatBits]
  | succ fuel ih =>
    simp only [formatBits]
    split
    · simp
    · rw [ih (u / base) (digitByte (u % base) :: acc), ih (u / base) [digitByte (u % base)]]
      simp

theorem decVal_append (ds es : List Nat) (n : Nat) :
    decVal (ds ++ es) n = decVal es (decVal ds n) := by
  simp [decVal, List.foldl_append]

theorem formatBits_digits (fuel u : Nat) (h : u < fuel) :
    (∀ c ∈ formatBits 10 fuel u [], 48 ≤ c ∧ c ≤ 57) ∧ formatBits 10 fuel u [] ≠ [] ∧
      decVal (formatBits 10 fuel u []) 0 = u := by
  induction fuel generalizing u with
  | zero => omega
  | succ fuel ih =>
    simp only [formatBits]
    split
    · rename_i hu
      have hd : digitByte u = 48 + u := by simp [digitByte, hu]
      refine ⟨?_, by simp, ?_⟩
      · intro c hc
        simp only [List.mem_singleton] at hc
        omega
      · simp [decVal, hd]
    · rename_i hu
      have hlt : u / 10 < fuel := by omega
      obtain ⟨h1, h2, h3⟩ := ih (u / 10) hlt
      have hd : digitByte (u % 10) = 48 + u % 10 := by
        have : u % 10 < 10 := Nat.mod_lt _ (by decide)
        simp [digitByte, this]
      rw [formatBits_acc]
      refine ⟨?_, by simp [h2], ?_⟩
      · intro c hc
        rcases List.mem_append.mp hc with hc | hc
        · exact h1 c hc
        · simp only [List.mem_singleton] at hc
          omega
      · rw [decVal_append, h3]
        simp only [decVal, List.foldl_cons, List.foldl_nil, hd]
        omega

theorem decVal_ge (ds : List Nat) (n : Nat) : n ≤ decVal ds n := by
  induction ds generalizing n with
  | nil => simp [decVal]
  | cons c cs ih =>
    have := ih (n * 10 + (c - 48))
    simp only [decVal, List.foldl_cons] at this ⊢
    omega

theorem decVal_cons (c : Nat) (cs : List Nat) (n : Nat) :
    decVal (c :: cs) n = decVal cs (n * 10 + (c - 48)) := by
  simp [decVal]

theorem parseUintLoop_of_digits (ds : List Nat) (n : Nat)
    (hd : ∀ c ∈ ds, 48 ≤ c ∧ c ≤ 57) (hb : decVal ds n ≤ 2 ^ 32 - 1) :
    parseUintLoop 10 ((2 ^ 64 - 1) / 10 + 1) (2 ^ 32 - 1) ds n = (decVal ds n, none) := by
  induction ds generalizing n with
  | nil => simp [parseUintLoop, decVal]
  | cons c cs ih =>
    have hc := hd c (List.mem_cons_self c cs)
    have hd' : ∀ c ∈ cs, 48 ≤ c ∧ c ≤ 57 := fun x hx => hd x (List.mem_cons_of_mem c hx)
    rw [decVal_cons] at hb ⊢
    have hge := decVal_ge cs (n * 10 + (c - 48))
    have hrec := ih (n * 10 + (c - 48)) hd' hb
    norm_num at hb hrec ⊢
    simp only [parseUintLoop]
    rw [if_pos hc]
    have h1 : ¬ (c - 48 ≥ 10) := by omega
    have h2 : ¬ (n ≥ 1844674407370955162) := by omega
    have h3 : n * 10 % 18446744073709551616 = n * 10 := by omega
    have h4 : (n * 10 + (c - 48)) % 18446744073709551616 = n * 10 + (c - 48) := by omega
    have h5 : ¬ (n * 10 + (c - 48) < n * 10 ∨ n * 10 + (c - 48) > 4294967295) := by omega
    norm_num
    simp only [h3, h4]
    rw [if_neg h1, if_neg h2, if_neg h5]
    exact hrec

theorem parseUintLoop_ok (ds : List Nat) (n r : Nat)
    (h : parseUintLoop 10 ((2 ^ 64 - 1) / 10 + 1) (2 ^ 32 - 1) ds n = (r, none)) :
    (∀ c ∈ ds, 48 ≤ c ∧ c ≤ 57) ∧ r = decVal ds n ∧ (ds ≠ [] → r ≤ 2 ^ 32 - 1) := by
  induction ds generalizing n with
  | nil =>
    simp only [parseUintLoop, Prod.mk.injEq, and_true] at h
    simp [decVal, h]
  | cons c cs ih =>
    simp only [parseUintLoop] at h
    by_cases hc : 48 ≤ c ∧ c ≤ 57
    · rw [if_pos hc] at h
      norm_num at h
      by_cases h1 : 10 ≤ c - 48
      · rw [if_pos h1] at h
        simp at h
      · rw [if_neg h1] at h
        by_cases h2 : 1844674407370955162 ≤ n
        · rw [if_pos h2] at h
          simp at h
        · rw [if_neg h2] at h
          have h3 : n * 10 % 18446744073709551616 = n * 10 := by omega
          rw [h3] at h
          by_cases h5 : (n * 10 + (c - 48)) % 18446744073709551616 < n * 10 ∨
              4294967295 < (n * 10 + (c - 48)) % 18446744073709551616
          · rw [if_pos h5] at h
            simp at h
          · rw [if_neg h5] at h
            have h4 : (n * 10 + (c - 48)) % 18446744073709551616 = n * 10 + (c - 48) := by omega
            rw [h4] at h h5
            obtain ⟨g1, g2, g3⟩ := ih _ h
            refine ⟨?_, ?_, ?_⟩
            · intro x hx
              rcases List.mem_cons.mp hx with hx | hx
              · rw [hx]; exact hc
              · exact g1 x hx
            · rw [decVal_cons]; exact g2
            · intro _
              cases cs with
              | nil =>
                simp only [decVal, List.foldl_nil] at g2
                norm_num
                omega
              | cons y ys => exact g3 (by simp)
    · rw [if_neg hc] at h
      by_cases hl : 97 ≤ c ||| 32 ∧ c ||| 32 ≤ 122
      · rw [if_pos hl] at h
        have h1 : (c ||| 32) - 97 + 10 ≥ 10 := by omega
        simp only [if_pos h1] at h
        simp at h
      · rw [if_neg hl] at h
        simp at h

theorem parseUintLoop_err (base cutoff maxVal : Nat) (ds : List Nat) (n r : Nat) (e : NumErr)
    (h : parseUintLoop base cutoff maxVal ds n = (r, some e)) :
    (e = NumErr.ErrSyntax ∧ r = 0) ∨ (e = NumErr.ErrRange ∧ r = maxVal) := by
  induction ds generalizing n with
  | nil => simp [parseUintLoop] at h
  | cons c cs ih =>
    simp only [parseUintLoop] at h
    split at h
    · simp only [Prod.mk.injEq, Option.some.injEq] at h
      exact Or.inl ⟨h.2.symm, h.1.symm⟩
    · split at h
      · simp only [Prod.mk.injEq, Option.some.injEq] at h
        exact Or.inl ⟨h.2.symm, h.1.symm⟩
      · split at h
        · simp only [Prod.mk.injEq, Option.some.injEq] at h
          exact Or.inr ⟨h.2.symm, h.1.symm⟩
        · split at h
          · simp only [Prod.mk.injEq, Option.some.injEq] at h
            exact Or.inr ⟨h.2.symm, h.1.symm⟩
          · exact ih _ h

theorem ParseUint_of_digits (ds : List Nat) (hne : ds ≠ [])
    (hd : ∀ c ∈ ds, 48 ≤ c ∧ c ≤ 57) (hb : decVal ds 0 ≤ 2 ^ 32 - 1) :
    ParseUint ds 10 32 = (decVal ds 0, none) := by
  unfold ParseUint
  rw [if_neg hne]
  exact parseUintLoop_of_digits ds 0 hd hb

theorem ParseUint_cases (s : List Nat) :
    (ParseUint s 10 32 = (0, some NumErr.ErrSyntax)) ∨
    (ParseUint s 10 32 = (2 ^ 32 - 1, some NumErr.ErrRange)) ∨
    (s ≠ [] ∧ (∀ c ∈ s, 48 ≤ c ∧ c ≤ 57) ∧ decVal s 0 ≤ 2 ^ 32 - 1 ∧
      ParseUint s 10 32 = (decVal s 0, none)) := by
  unfold ParseUint
  by_cases hs : s = []
  · rw [if_pos hs]; exact Or.inl rfl
  · rw [if_neg hs]
    rcases hr : parseUintLoop 10 ((2 ^ 64 - 1) / 10 + 1) (2 ^ 32 - 1) s 0 with ⟨r, e⟩
    cases e with
    | none =>
      obtain ⟨g1, g2, g3⟩ := parseUintLoop_ok s 0 r hr
      right; right
      refine ⟨hs, g1, ?_, ?_⟩
      · rw [← g2]; exact g3 hs
      · rw [g2]
    | some e =>
      rcases parseUintLoop_err _ _ _ s 0 r e hr with ⟨he, hr0⟩ | ⟨he, hr0⟩
      · left; rw [he, hr0]
      · right; left; rw [he, hr0]

theorem ParseInt_cons (c : Nat) (rest : List Nat) :
    ParseInt (c :: rest) 10 32 =
      if (ParseUint (if c = 43 ∨ c = 45 then rest else c :: rest) 10 32).2 = some NumErr.ErrSyntax
      then (0, some NumErr.ErrSyntax)
      else if c ≠ 45 ∧ (ParseUint (if c = 43 ∨ c = 45 then rest else c :: rest) 10 32).1 ≥ 2147483648
      then (2147483647, some NumErr.ErrRange)
      else if c = 45 ∧ (ParseUint (if c = 43 ∨ c = 45 then rest else c :: rest) 10 32).1 > 2147483648
      then (-2147483648, some NumErr.ErrRange)
      else (if c = 45
        then -((ParseUint (if c = 43 ∨ c = 45 then rest else c :: rest) 10 32).1 : Int)
        else ((ParseUint (if c = 43 ∨ c = 45 then rest else c :: rest) 10 32).1 : Int), none) := by
  simp only [ParseInt]
  by_cases h : (ParseUint (if c = 43 ∨ c = 45 then rest else c :: rest) 10 32).2
      = some NumErr.ErrSyntax
  · rw [if_pos h, if_pos h, h]
  · rw [if_neg h, if_neg h]
    by_cases hc : c = 45
    · simp [hc]
    · simp [hc]

theorem ParseInt_of_literal (s : List Nat) (n : Int) (h : IsInt32Literal s n) :
    ParseInt s 10 32 = (n, none) := by
  obtain ⟨ds, hne, hd, h⟩ := h
  obtain ⟨c, cs, rfl⟩ := List.exists_cons_of_ne_nil hne
  have hc := hd c (List.mem_cons_self c cs)
  rcases h with ⟨hs, hn, hb⟩ | ⟨hs, hn, hb⟩
  · have hu := ParseUint_of_digits (c :: cs) hne hd (by norm_num; omega)
    rcases hs with hs | hs
    · subst hs
      have h1 : ¬ (c = 43 ∨ c = 45) := by omega
      have h2 : ¬ (c = 45) := by omega
      rw [ParseInt_cons, if_neg h1, hu]
      rw [if_neg (by simp), if_neg (by simp only [ge_iff_le, not_and, not_le]; omega),
        if_neg (by simp [h2]), if_neg h2, hn]
    · subst hs
      rw [ParseInt_cons, if_pos (Or.inl rfl), hu]
      rw [if_neg (by simp), if_neg (by simp only [ge_iff_le, not_and, not_le]; omega),
        if_neg (by simp), if_neg (by decide), hn]
  · have hu := ParseUint_of_digits (c :: cs) hne hd (by norm_num; omega)
    subst hs
    rw [ParseInt_cons, if_pos (Or.inr rfl), hu]
    rw [if_neg (by simp), if_neg (by simp), if_neg (by simp only [gt_iff_lt, not_and, not_lt]; omega),
      if_pos rfl, hn]


theorem ParseInt_ok (s : List Nat) (n : Int) (h : ParseInt s 10 32 = (n, none)) :
    IsInt32Literal s n := by
  cases s with
  | nil => simp [ParseInt] at h
  | cons c rest =>
    rw [ParseInt_cons] at h
    rcases ParseUint_cases (if c = 43 ∨ c = 45 then rest else c :: rest) with hu | hu | hu
    · rw [hu] at h
      simp at h
    · rw [hu] at h
      norm_num at h
      by_cases hc : c = 45
      · simp [hc] at h
      · simp [hc] at h
    · obtain ⟨hne, hd, hb, hu⟩ := hu
      rw [hu] at h
      rw [if_neg (by simp)] at h
      by_cases hc : c = 45
      · subst hc
        simp only [ne_eq, not_true_eq_false, false_and, if_false, true_and, or_true, if_true,
          gt_iff_lt] at h hne hd hb
        by_cases hlt : 2147483648 < decVal rest 0
        · rw [if_pos hlt] at h
          simp at h
        · rw [if_neg hlt] at h
          simp only [Prod.mk.injEq, and_true] at h
          exact ⟨rest, hne, hd, Or.inr ⟨rfl, h.symm, by omega⟩⟩
      · by_cases hge : 2147483648 ≤ decVal (if c = 43 ∨ c = 45 then rest else c :: rest) 0
        · rw [if_pos ⟨hc, hge⟩] at h
          simp at h
        · rw [if_neg (by simp only [ge_iff_le, not_and]; exact fun _ => hge),
            if_neg (by simp [hc]), if_neg hc] at h
          simp only [Prod.mk.injEq, and_true] at h
          refine ⟨_, hne, hd, Or.inl ⟨?_, h.symm, by omega⟩⟩
          by_cases hp : c = 43
          · subst hp
            simp
          · have : ¬ (c = 43 ∨ c = 45) := by omega
            simp [this]

theorem ParseInt_err (s : List Nat) (h : (ParseInt s 10 32).2 ≠ none) :
    ¬ ∃ n, IsInt32Literal s n := by
  rintro ⟨n, hn⟩
  rw [ParseInt_of_literal s n hn] at h
  exact h rfl

/-! ## Theorems: splitting on the space -/

theorem Split_ne_nil (s : List Nat) (sep : Nat) : Split s sep ≠ [] := by
  cases s with
  | nil => simp [Split]
  | cons c cs =>
    simp only [Split]
    split
    · simp
    · split <;> simp

theorem Split_cons_ne (c : Nat) (cs : List Nat) (sep : Nat) (h : c ≠ sep) :
    ∃ p ps, Split cs sep = p :: ps ∧ Split (c :: cs) sep = (c :: p) :: ps := by
  obtain ⟨p, ps, hp⟩ := List.exists_cons_of_ne_nil (Split_ne_nil cs sep)
  refine ⟨p, ps, hp, ?_⟩
  simp only [Split, if_neg h, hp]

theorem Split_singleton_iff (s q : List Nat) (sep : Nat) :
    Split s sep = [q] ↔ s = q ∧ sep ∉ q := by
  induction s generalizing q with
  | nil =>
    simp only [Split, List.cons.injEq, and_true]
    constructor
    · intro h; subst h; simp
    · intro h; exact h.1
  | cons c cs ih =>
    by_cases hc : c = sep
    · subst hc
      simp only [Split, if_true, List.cons.injEq]
      constructor
      · intro h
        exact absurd h.2 (Split_ne_nil cs c)
      · rintro ⟨h1, h2⟩
        subst h1
        simp at h2
    · obtain ⟨p, ps, hp, hs⟩ := Split_cons_ne c cs sep hc
      rw [hs]
      constructor
      · intro h
        simp only [List.cons.injEq] at h
        obtain ⟨h1, h2⟩ := h
        subst h1 h2
        obtain ⟨g1, g2⟩ := (ih p).mp hp
        subst g1
        refine ⟨rfl, ?_⟩
        simp only [List.mem_cons, not_or]
        exact ⟨fun h => hc h.symm, g2⟩
      · rintro ⟨h1, h2⟩
        subst h1
        simp only [List.mem_cons, not_or] at h2
        have := (ih cs).mpr ⟨rfl, h2.2⟩
        rw [hp] at this
        simp only [List.cons.injEq] at this
        obtain ⟨g1, g2⟩ := this
        subst g1 g2
        rfl

theorem Split_pair_iff (s p q : List Nat) (sep : Nat) :
    Split s sep = [p, q] ↔ s = p ++ sep :: q ∧ sep ∉ p ∧ sep ∉ q := by
  induction s generalizing p with
  | nil => simp [Split]
  | cons c cs ih =>
    by_cases hc : c = sep
    · subst hc
      simp only [Split, if_true, List.cons.injEq]
      rw [Split_singleton_iff]
      constructor
      · rintro ⟨h1, h2, h3⟩
        subst h1 h2
        simp [h3]
      · rintro ⟨h1, h2, h3⟩
        cases p with
        | nil =>
          simp only [List.nil_append, List.cons.injEq, true_and] at h1
          exact ⟨rfl, h1, h3⟩
        | cons x xs =>
          simp only [List.cons_append, List.cons.injEq] at h1
          simp only [List.mem_cons, not_or] at h2
          exact absurd h1.1 h2.1
    · obtain ⟨p', ps, hp, hs⟩ := Split_cons_ne c cs sep hc
      rw [hs]
      constructor
      · intro h
        simp only [List.cons.injEq] at h
        obtain ⟨h1, h2⟩ := h
        subst h1 h2
        obtain ⟨g1, g2, g3⟩ := (ih p').mp hp
        subst g1
        refine ⟨rfl, ?_, g3⟩
        simp only [List.mem_cons, not_or]
        exact ⟨fun h => hc h.symm, g2⟩
      · rintro ⟨h1, h2, h3⟩
        cases p with
        | nil =>
          simp only [List.nil_append, List.cons.injEq] at h1
          exact absurd h1.1 hc
        | cons x xs =>
          simp only [List.cons_append, List.cons.injEq] at h1
          obtain ⟨hx, hcs⟩ := h1
          subst hx hcs
          simp only [List.mem_cons, not_or] at h2
          have := (ih xs).mpr ⟨rfl, h2.2, h3⟩
          rw [hp] at this
          simp only [List.cons.injEq] at this
          obtain ⟨g1, g2⟩ := this
          subst g1 g2
          rfl

/-! ## Theorems: quoting and unquoting plain text -/

theorem appendEscapedRune_plain (table : Nat → Bool) (c : Nat)
    (hc : 32 ≤ c ∧ c ≤ 126 ∧ c ≠ 34 ∧ c ≠ 92) : appendEscapedRune table c 34 = [c] := by
  have h1 : ¬ (c = 34 ∨ c = 92) := by omega
  have h2 : IsPrint table c = true := by
    unfold IsPrint
    rw [if_pos (by omega), if_pos (by omega)]
  have h3 : AppendRune c = [c] := by
    unfold AppendRune
    rw [if_pos (by omega)]
  unfold appendEscapedRune
  rw [if_neg h1, h2, if_pos rfl, h3]

theorem appendQuotedLoop_plain (table : Nat → Bool) (s : List Nat) (fuel : Nat)
    (hf : s.length ≤ fuel) (hs : ∀ b ∈ s, 32 ≤ b ∧ b ≤ 126 ∧ b ≠ 34 ∧ b ≠ 92) :
    appendQuotedLoop table 34 fuel s = s := by
  induction s generalizing fuel with
  | nil => cases fuel <;> rfl
  | cons c cs ih =>
    have hc := hs c (List.mem_cons_self c cs)
    have hcs : ∀ b ∈ cs, 32 ≤ b ∧ b ≤ 126 ∧ b ≠ 34 ∧ b ≠ 92 :=
      fun b hb => hs b (List.mem_cons_of_mem c hb)
    cases fuel with
    | zero => simp at hf
    | succ fuel =>
      simp only [List.length_cons, Nat.add_le_add_iff_right] at hf
      have h1 : ¬ (c ≥ 128) := by omega
      have h2 : ¬ (True ∧ c = RuneError) := by
        unfold RuneError
        omega
      simp only [appendQuotedLoop, if_neg h1, appendEscapedRune_plain table c hc,
        List.drop_succ_cons, List.drop_zero, ih fuel hf hcs]
      rw [if_neg h2]
      rfl

theorem Quote_plain (table : Nat → Bool) (s : List Nat)
    (hs : ∀ b ∈ s, 32 ≤ b ∧ b ≤ 126 ∧ b ≠ 34 ∧ b ≠ 92) :
    Quote table s = 34 :: (s ++ [34]) := by
  unfold Quote
  rw [appendQuotedLoop_plain table s s.length (Nat.le_refl _) hs]
  rfl

theorem indexByte_eq_none (s : List Nat) (c : Nat) (h : c ∉ s) : indexByte s c = none := by
  induction s with
  | nil => rfl
  | cons b bs ih =>
    simp only [List.mem_cons, not_or] at h
    have hne : ¬ b = c := fun hb => h.1 hb.symm
    simp only [indexByte, if_neg hne, ih h.2, Option.map_none']

theorem indexByte_append (s t : List Nat) (c : Nat) (h : c ∉ s) :
    indexByte (s ++ c :: t) c = some s.length := by
  induction s with
  | nil => simp [indexByte]
  | cons b bs ih =>
    simp only [List.mem_cons, not_or] at h
    have hne : ¬ b = c := fun hb => h.1 hb.symm
    rw [List.cons_append]
    simp only [indexByte, if_neg hne, ih h.2, Option.map_some', List.length_cons]

theorem contains_eq_false (s : List Nat) (c : Nat) (h : c ∉ s) : contains s c = false := by
  simp [contains, indexByte_eq_none s c h]

theorem ValidStringLoop_ascii (s : List Nat) (fuel : Nat) (hf : s.length ≤ fuel)
    (hs : ∀ b ∈ s, b < 128) : ValidStringLoop fuel s = true := by
  induction s generalizing fuel with
  | nil => cases fuel <;> rfl
  | cons c cs ih =>
    cases fuel with
    | zero => simp at hf
    | succ fuel =>
      simp only [List.length_cons, Nat.add_le_add_iff_right] at hf
      have hc := hs c (List.mem_cons_self c cs)
      simp only [ValidStringLoop, if_pos hc]
      exact ih fuel hf (fun b hb => hs b (List.mem_cons_of_mem c hb))

theorem unquote_plain (s : List Nat)
    (hs : ∀ b ∈ s, 32 ≤ b ∧ b ≤ 126 ∧ b ≠ 34 ∧ b ≠ 92) :
    unquote (34 :: (s ++ [34])) = some (s, []) := by
  have h34 : 34 ∉ s := fun h => (hs 34 h).2.2.1 rfl
  have h92 : 92 ∉ 34 :: (s ++ [34]) := by
    simp only [List.mem_cons, List.mem_append, List.mem_singleton, not_or]
    exact ⟨by decide, ⟨fun h => (hs 92 h).2.2.2 rfl, by decide, List.not_mem_nil 92⟩⟩
  have h10 : 10 ∉ 34 :: (s ++ [34]) := by
    simp only [List.mem_cons, List.mem_append, List.mem_singleton, not_or]
    exact ⟨by decide, ⟨fun h => by have := (hs 10 h).1; omega, by decide, List.not_mem_nil 10⟩⟩
  have hidx : indexByte (s ++ [34]) 34 = some s.length := indexByte_append s [] 34 h34
  have hvalid : ValidString s = true :=
    ValidStringLoop_ascii s s.length (Nat.le_refl _) (fun b hb => by have := (hs b hb).2.1; omega)
  have htake : (34 :: (s ++ [34])).take (s.length + 2) = 34 :: (s ++ [34]) := by
    apply List.take_of_length_le
    simp
  have hinner : ((34 :: (s ++ [34])).take (s.length + 2 - 1)).drop 1 = s := by
    simp [List.take_append_of_le_length]
  have hdrop : (34 :: (s ++ [34])).drop (s.length + 2) = [] := by
    apply List.drop_of_length_le
    simp
  obtain ⟨r, rs, hr⟩ : ∃ r rs, s ++ [34] = r :: rs :=
    List.exists_cons_of_ne_nil (by simp)
  have hunf : unquote (34 :: r :: rs) =
      match indexByte (r :: rs) 34 with
      | none => none
      | some e =>
        if plainOK : (!contains ((34 :: r :: rs).take (e + 2)) 92
            && !contains ((34 :: r :: rs).take (e + 2)) 10
            && ValidString (((34 :: r :: rs).take (e + 2 - 1)).drop 1)) = true
        then some (((34 :: r :: rs).take (e + 2 - 1)).drop 1, (34 :: r :: rs).drop (e + 2))
        else
          match unquoteLoop 34 ((r :: rs).length + 1) (r :: rs) [] with
          | none => none
          | some (buf, left) =>
            match left with
            | [] => none
            | c :: tail => if c = 34 then some (buf, tail) else none := by
    simp only [unquote]
    cases indexByte (r :: rs) 34 with
    | none => rfl
    | some e =>
      simp only [Nat.reduceEqDiff, if_false, true_or, if_true, Bool.and_assoc, dite_eq_ite]
  rw [hr] at hidx htake hinner hdrop h92 h10
  rw [hr, hunf, hidx]
  simp only [htake, hinner, hdrop, contains_eq_false _ _ h92, contains_eq_false _ _ h10, hvalid]
  rfl

theorem Unquote_plain (s : List Nat)
    (hs : ∀ b ∈ s, 32 ≤ b ∧ b ≤ 126 ∧ b ≠ 34 ∧ b ≠ 92) :
    Unquote (34 :: (s ++ [34])) = some s := by
  simp only [Unquote, unquote_plain s hs]

/-! ## Theorems: the Volumes codec -/

theorem int32_of_range (n : Int) (h1 : -2147483648 ≤ n) (h2 : n ≤ 2147483647) : int32 n = n := by
  unfold int32
  omega

theorem IsInt32Literal_range (s : List Nat) (n : Int) (h : IsInt32Literal s n) :
    -2147483648 ≤ n ∧ n ≤ 2147483647 := by
  obtain ⟨ds, _, _, h⟩ := h
  rcases h with ⟨_, hn, hb⟩ | ⟨_, hn, hb⟩ <;> omega

theorem UnmarshalJSON_of_parts (v : Int) (jsonValue u p : List Nat) (n : Int)
    (hu : Unquote jsonValue = some u) (hp : Split u 32 = [p, wordVolumes])
    (hn : ParseInt p 10 32 = (n, none)) : UnmarshalJSON v jsonValue = (int32 n, none) := by
  simp [UnmarshalJSON, hu, hp, hn]

theorem UnmarshalJSON_of_bad_parts (v : Int) (jsonValue u : List Nat)
    (hu : Unquote jsonValue = some u) (hp : ¬ ∃ p, Split u 32 = [p, wordVolumes]) :
    UnmarshalJSON v jsonValue = (v, some GoError.ErrInvalidVolumeFormat) := by
  have hcond : (Split u 32).length ≠ 2 ∨ (Split u 32).getD 1 [] ≠ wordVolumes := by
    by_contra hcon
    simp only [ne_eq, not_or, not_not] at hcon
    obtain ⟨hl, hw⟩ := hcon
    match hs : Split u 32, hl, hw with
    | [a, b], _, hw =>
      simp only [List.getD_cons_succ, List.getD_cons_zero] at hw
      exact hp ⟨a, by rw [hs, hw]⟩
  simp only [UnmarshalJSON, hu]
  rw [if_pos hcond]

theorem UnmarshalJSON_of_bad_int (v : Int) (jsonValue u p : List Nat)
    (hu : Unquote jsonValue = some u) (hp : Split u 32 = [p, wordVolumes])
    (hn : (ParseInt p 10 32).2 ≠ none) :
    UnmarshalJSON v jsonValue = (v, some GoError.ErrInvalidVolumeFormat) := by
  simp [UnmarshalJSON, hu, hp, hn]

theorem space_not_mem_wordVolumes : 32 ∉ wordVolumes := by decide

/-- C2, as amended. `UnmarshalJSON` succeeds on a token exactly when
`strconv.Unquote` accepts it and the unquoted text is a first part without a
space, one space and the word `Volumes`, the first part being a base-10 signed
32-bit integer; the stored value is then that integer. On every other token it
returns `ErrInvalidVolumeFormat` and leaves the target as it was. -/
theorem UnmarshalJSON_spec (v : Int) (jsonValue : List Nat) :
    (∃ p n, Unquote jsonValue = some (p ++ spaceVolumes) ∧ 32 ∉ p ∧ IsInt32Literal p n ∧
        UnmarshalJSON v jsonValue = (n, none)) ∨
    ((¬ ∃ p n, Unquote jsonValue = some (p ++ spaceVolumes) ∧ 32 ∉ p ∧ IsInt32Literal p n) ∧
        UnmarshalJSON v jsonValue = (v, some GoError.ErrInvalidVolumeFormat)) := by
  cases hu : Unquote jsonValue with
  | none =>
    right
    refine ⟨by simp, ?_⟩
    simp [UnmarshalJSON, hu]
  | some u =>
    by_cases hp : ∃ p, Split u 32 = [p, wordVolumes]
    · obtain ⟨p, hp⟩ := hp
      obtain ⟨hu', hp1, _⟩ := (Split_pair_iff u p wordVolumes 32).mp hp
      rcases hr : ParseInt p 10 32 with ⟨n, e⟩
      cases e with
      | none =>
        left
        have hlit := ParseInt_ok p n hr
        obtain ⟨hlo, hhi⟩ := IsInt32Literal_range p n hlit
        refine ⟨p, n, ?_, hp1, hlit, ?_⟩
        · rw [hu']; rfl
        · rw [UnmarshalJSON_of_parts v jsonValue u p n hu hp hr, int32_of_range n hlo hhi]
      | some e =>
        right
        have hne : (ParseInt p 10 32).2 ≠ none := by rw [hr]; simp
        refine ⟨?_, UnmarshalJSON_of_bad_int v jsonValue u p hu hp hne⟩
        rintro ⟨p', n', h1, h2, h3⟩
        simp only [Option.some.injEq] at h1
        have hp' : Split u 32 = [p', wordVolumes] :=
          (Split_pair_iff u p' wordVolumes 32).mpr ⟨h1, h2, space_not_mem_wordVolumes⟩
        rw [hp] at hp'
        simp only [List.cons.injEq, and_true] at hp'
        subst hp'
        exact ParseInt_err p hne ⟨n', h3⟩
    · right
      refine ⟨?_, UnmarshalJSON_of_bad_parts v jsonValue u hu hp⟩
      rintro ⟨p', n', h1, h2, _⟩
      simp only [Option.some.injEq] at h1
      exact hp ⟨p', (Split_pair_iff u p' wordVolumes 32).mpr ⟨h1, h2, space_not_mem_wordVolumes⟩⟩

theorem UnmarshalJSON_rejects (v : Int) :
    UnmarshalJSON v (ascii "\"5\"") = (v, some GoError.ErrInvalidVolumeFormat) ∧
    UnmarshalJSON v (ascii "5") = (v, some GoError.ErrInvalidVolumeFormat) ∧
    UnmarshalJSON v (ascii "\"5 volumes\"") = (v, some GoError.ErrInvalidVolumeFormat) ∧
    UnmarshalJSON v (ascii "\"5 Volumes more\"") = (v, some GoError.ErrInvalidVolumeFormat) ∧
    UnmarshalJSON v (ascii "\"five Volumes\"") = (v, some GoError.ErrInvalidVolumeFormat) ∧
    UnmarshalJSON v (ascii "\"2147483648 Volumes\"") = (v, some GoError.ErrInvalidVolumeFormat) ∧
    UnmarshalJSON v (ascii "\"5 Volumes") = (v, some GoError.ErrInvalidVolumeFormat) ∧
    UnmarshalJSON v (ascii "5 Volumes") = (v, some GoError.ErrInvalidVolumeFormat) := by
  refine ⟨?_, ?_, ?_, ?_, ?_, ?_, ?_, ?_⟩ <;> rfl

theorem UnmarshalJSON_accepts (v : Int) :
    UnmarshalJSON v (ascii "\"5 Volumes\"") = (5, none) ∧
    UnmarshalJSON v (ascii "\"+5 Volumes\"") = (5, none) ∧
    UnmarshalJSON v (ascii "\"-2147483648 Volumes\"") = (-2147483648, none) ∧
    UnmarshalJSON v (ascii "`5 Volumes`") = (5, none) := by
  refine ⟨?_, ?_, ?_, ?_⟩ <;> rfl

/-- C2, counterexample. The JSON string `escapedToken`, which writes the space of
`5 Volumes` as the escape `\u0020`, is accepted and stores 5, although the
text between its outer double quotes has no space and splits into one part
only; and `backquotedToken`, which has no outer double quotes at all, is
accepted and stores 5 as well. -/
theorem UnmarshalJSON_accepts_escaped_space :
    UnmarshalJSON 0 escapedToken = (5, none) ∧
      stripOuterQuotes escapedToken = some escapedText ∧
      Split escapedText 32 = [escapedText] ∧
      UnmarshalJSON 0 backquotedToken = (5, none) ∧
      stripOuterQuotes backquotedToken = none := by
  decide

theorem fmtInteger_literal (v : Int) (h1 : -2147483648 ≤ v) (h2 : v ≤ 2147483647) :
    IsInt32Literal (fmtInteger v) v ∧
      ∀ b ∈ fmtInteger v, 32 < b ∧ b ≤ 126 ∧ b ≠ 34 ∧ b ≠ 92 := by
  obtain ⟨g1, g2, g3⟩ := formatBits_digits (v.natAbs + 1) v.natAbs (Nat.lt_succ_self _)
  unfold fmtInteger formatInt
  by_cases hv : v < 0
  · rw [if_pos hv]
    constructor
    · refine ⟨_, g2, g1, Or.inr ⟨rfl, ?_, ?_⟩⟩
      · rw [g3]; omega
      · rw [g3]; omega
    · intro b hb
      rcases List.mem_cons.mp hb with hb | hb
      · subst hb; decide
      · have := g1 b hb
        omega
  · rw [if_neg hv]
    constructor
    · refine ⟨_, g2, g1, Or.inl ⟨Or.inl rfl, ?_, ?_⟩⟩
      · rw [g3]; omega
      · rw [g3]; omega
    · intro b hb
      have := g1 b hb
      omega

theorem Volumes_roundtrip_int32 (table : Nat → Bool) (v target : Int)
    (h1 : -2147483648 ≤ v) (h2 : v ≤ 2147483647) :
    (MarshalJSON table v).2 = none ∧
      UnmarshalJSON target (MarshalJSON table v).1 = (v, none) := by
  obtain ⟨hlit, hbytes⟩ := fmtInteger_literal v h1 h2
  have hsafe : ∀ b ∈ fmtInteger v ++ spaceVolumes, 32 ≤ b ∧ b ≤ 126 ∧ b ≠ 34 ∧ b ≠ 92 := by
    intro b hb
    rcases List.mem_append.mp hb with hb | hb
    · have := hbytes b hb
      omega
    · have hsv : ∀ b ∈ spaceVolumes, 32 ≤ b ∧ b ≤ 126 ∧ b ≠ 34 ∧ b ≠ 92 := by decide
      exact hsv b hb
  have hsp : 32 ∉ fmtInteger v := fun h => by
    have := (hbytes 32 h).1
    omega
  refine ⟨rfl, ?_⟩
  simp only [MarshalJSON]
  rw [Quote_plain table _ hsafe]
  have hu := Unquote_plain _ hsafe
  have hp : Split (fmtInteger v ++ spaceVolumes) 32 = [fmtInteger v, wordVolumes] :=
    (Split_pair_iff _ _ _ 32).mpr ⟨rfl, hsp, space_not_mem_wordVolumes⟩
  rw [UnmarshalJSON_of_parts target _ _ _ v hu hp (ParseInt_of_literal _ _ hlit),
    int32_of_range v h1 h2]

/-- C1. For every integer `v` with `1 ≤ v ≤ 2^31 - 1`, `MarshalJSON` returns no
error and `UnmarshalJSON` applied to its bytes succeeds and stores exactly `v`,
whatever the target held before. -/
theorem Volumes_roundtrip (table : Nat → Bool) (v target : Int)
    (h1 : 1 ≤ v) (h2 : v ≤ 2 ^ 31 - 1) :
    (MarshalJSON table v).2 = none ∧
      UnmarshalJSON target (MarshalJSON table v).1 = (v, none) :=
  Volumes_roundtrip_int32 table v target (by omega) (by norm_num at h2; omega)

/-- C1, witness: the round trip of 12 volumes. -/
theorem Volumes_roundtrip_witness :
    ((1 : Int) ≤ 12 ∧ (12 : Int) ≤ 2 ^ 31 - 1) ∧
      (MarshalJSON (fun _ => false) 12).2 = none ∧
      UnmarshalJSON 0 (MarshalJSON (fun _ => false) 12).1 = (12, none) :=
  ⟨by decide, Volumes_roundtrip (fun _ => false) 12 0 (by decide) (by decide)⟩

/-- C7, witness: the sample comic passes and has two distinct genres. -/
theorem ValidateComic_genres_invariant_witness :
    (ValidateComic 2026 Validator.New sampleComic).Valid = true ∧
      ∃ gs, sampleComic.Genres = some gs ∧ 1 ≤ gs.length ∧ gs.length ≤ 5 ∧ gs.Nodup :=
  ⟨by decide, ValidateComic_genres_invariant 2026 sampleComic (by decide)⟩

/-! ## Theorems: the record store -/

theorem Get_no_row (db : DB) (id : Int) (h1 : 1 ≤ id) (h2 : db.comics id = none) :
    (Get db id).2 = (none, some GoError.ErrNoRows) := by
  have h : ¬ id < 1 := by omega
  simp [Get, queryRowByID, if_neg h, h2]

theorem Get_below_one (db : DB) (id : Int) (h1 : id < 1) :
    Get db id = (db, none, some GoError.RecordNotFoundError) := by
  simp [Get, if_pos h1]

theorem Get_cases (db : DB) (id : Int) :
    (∃ err, (Get db id).2 = (none, some err)) ∨ (∃ comic, (Get db id).2 = (some comic, none)) := by
  unfold Get
  by_cases h : id < 1
  · rw [if_pos h]
    exact Or.inl ⟨_, rfl⟩
  · rw [if_neg h]
    unfold queryRowByID
    cases db.comics id with
    | none => exact Or.inl ⟨_, rfl⟩
    | some r => exact Or.inr ⟨_, rfl⟩

/-- C3, the code at a failing input. After `Delete` has removed the row of id 7
with success, `Get` of id 7 returns a nil comic and `sql.ErrNoRows`, which is
not `RecordNotFoundError`, and `showComicHandler` and `updateComicHandler`
answer with the server-error response, status 500. -/
theorem Get_missing_row_returns_ErrNoRows :
    (Delete sampleDB 7).2 = none ∧
      (Get (Delete sampleDB 7).1 7).2 = (none, some GoError.ErrNoRows) ∧
      GoError.ErrNoRows ≠ GoError.RecordNotFoundError ∧
      (showComicHandler (Delete sampleDB 7).1 (Except.ok 7) none).2
        = [Response.serverError GoError.ErrNoRows] ∧
      (updateComicHandler (Delete sampleDB 7).1 (Except.ok 7) "" (Except.ok yearOnlyInput) 2026
        none).responses = [Response.serverError GoError.ErrNoRows] ∧
      (Response.serverError GoError.ErrNoRows).status = 500 := by
  decide

/-- C5. `Delete` with an id below 1 returns `RecordNotFoundError` and leaves the
database as it was, no statement executed. With an id of 1 or more it returns
`RecordNotFoundError` when no row has the id (zero rows affected; the table is
unchanged) and nil when a row has it, which is then gone while every other
row stays; a second `Delete` of the same id after a successful one returns
`RecordNotFoundError`. -/
theorem Delete_spec (db : DB) (id : Int) :
    (id < 1 → Delete db id = (db, some GoError.RecordNotFoundError)) ∧
    (1 ≤ id → db.comics id = none →
      (execDelete db id).2 = 0 ∧ (Delete db id).2 = some GoError.RecordNotFoundError ∧
        ∀ i, (Delete db id).1.comics i = db.comics i) ∧
    (1 ≤ id → db.comics id ≠ none →
      (execDelete db id).2 = 1 ∧ (Delete db id).2 = none ∧ (Delete db id).1.comics id = none ∧
        ∀ i, i ≠ id → (Delete db id).1.comics i = db.comics i) ∧
    (1 ≤ id → (Delete db id).2 = none →
      (Delete (Delete db id).1 id).2 = some GoError.RecordNotFoundError) := by
  refine ⟨?_, ?_, ?_, ?_⟩
  · intro h
    simp [Delete, if_pos h]
  · intro h1 h2
    have h : ¬ id < 1 := by omega
    refine ⟨by simp [execDelete, h2], by simp [Delete, execDelete, if_neg h, h2], ?_⟩
    intro i
    simp only [Delete, execDelete, if_neg h, h2, Option.isSome_none, Bool.false_eq_true, if_false,
      if_true]
    by_cases hi : i = id
    · simp [hi, h2]
    · simp [hi]
  · intro h1 h2
    have h : ¬ id < 1 := by omega
    obtain ⟨r, hr⟩ := Option.ne_none_iff_exists'.mp h2
    refine ⟨by simp [execDelete, hr], by simp [Delete, execDelete, if_neg h, hr],
      by simp [Delete, execDelete, if_neg h, hr], ?_⟩
    intro i hi
    simp [Delete, execDelete, if_neg h, hr, hi]
  · intro h1 h2
    have h : ¬ id < 1 := by omega
    cases hr : db.comics id with
    | none => simp [Delete, execDelete, if_neg h, hr] at h2
    | some r => simp [Delete, execDelete, if_neg h, hr]

theorem Update_match (db : DB) (comic : Comic) (r : Row) (hv : comic.Version < maxInt32)
    (hr : db.comics comic.ID = some r) (hm : r.Version = comic.Version) :
    Update db comic =
      ({ comics := fun i => if i = comic.ID then
            some { CreatedAt := r.CreatedAt, Title := comic.Title, Year := comic.Year,
                   Volumes := comic.Volumes, Genres := comic.Genres,
                   Version := comic.Version + 1 }
          else db.comics i,
         statements := db.statements + 1 },
        { comic with Version := comic.Version + 1 }, none) := by
  have h1 : ¬ r.Version ≠ comic.Version := by simp [hm]
  have h2 : ¬ r.Version + 1 > maxInt32 := by omega
  simp only [Update, queryRowUpdate, hr]
  rw [if_neg h1, if_neg h2]
  simp only [hm]

theorem Update_no_match (db : DB) (comic : Comic)
    (h : ¬ ∃ r, db.comics comic.ID = some r ∧ r.Version = comic.Version) :
    Update db comic =
      ({ db with statements := db.statements + 1 }, comic, some GoError.EditConflictError) := by
  cases hr : db.comics comic.ID with
  | none => simp [Update, queryRowUpdate, hr]
  | some r =>
    have h1 : r.Version ≠ comic.Version := fun hm => h ⟨r, hr, hm⟩
    simp [Update, queryRowUpdate, hr, h1]

/-- C4, as amended. For a comic whose version is below the largest 32-bit value,
`Update` succeeds exactly when the row of `comic.ID` exists and its stored
version equals `comic.Version`. On success that row keeps its `created_at`,
takes the comic's title, year, volumes and genres and the old version plus 1,
every other row stays, and `comic.Version` becomes that new version;
otherwise `Update` returns `EditConflictError` and the table and the comic
are unchanged. After a successful update, a second update that still carries
the old version returns `EditConflictError` and leaves the table as the first
update wrote it. -/
theorem Update_spec (db : DB) (comic : Comic) (hv : comic.Version < maxInt32) :
    ((Update db comic).2.2 = none ↔
      ∃ r, db.comics comic.ID = some r ∧ r.Version = comic.Version) ∧
    (∀ r, db.comics comic.ID = some r → r.Version = comic.Version →
      (Update db comic).2.2 = none ∧
      (Update db comic).2.1 = { comic with Version := comic.Version + 1 } ∧
      (Update db comic).1.comics comic.ID =
        some { CreatedAt := r.CreatedAt, Title := comic.Title, Year := comic.Year,
               Volumes := comic.Volumes, Genres := comic.Genres, Version := r.Version + 1 } ∧
      (∀ i, i ≠ comic.ID → (Update db comic).1.comics i = db.comics i) ∧
      (∀ stale : Comic, stale.ID = comic.ID → stale.Version = comic.Version →
        (Update (Update db comic).1 stale).2.2 = some GoError.EditConflictError ∧
        (Update (Update db comic).1 stale).2.1 = stale ∧
        (Update (Update db comic).1 stale).1.comics = (Update db comic).1.comics)) ∧
    ((¬ ∃ r, db.comics comic.ID = some r ∧ r.Version = comic.Version) →
      (Update db comic).2.2 = some GoError.EditConflictError ∧
      (Update db comic).2.1 = comic ∧
      (Update db comic).1.comics = db.comics) := by
  refine ⟨?_, ?_, ?_⟩
  · constructor
    · intro h
      by_contra hno
      rw [Update_no_match db comic hno] at h
      simp at h
    · rintro ⟨r, hr, hm⟩
      rw [Update_match db comic r hv hr hm]
  · intro r hr hm
    rw [Update_match db comic r hv hr hm]
    refine ⟨rfl, rfl, by simp [hm], ?_, ?_⟩
    · intro i hi
      simp [hi]
    · intro stale hid hver
      have hno : ¬ ∃ r', (Update db comic).1.comics stale.ID = some r' ∧
          r'.Version = stale.Version := by
        rw [Update_match db comic r hv hr hm]
        rintro ⟨r', h1, h2⟩
        simp only [hid, if_true, Option.some.injEq] at h1
        rw [← h1, hver] at h2
        simp only at h2
        omega
      rw [← Update_match db comic r hv hr hm, Update_no_match _ stale hno]
      exact ⟨rfl, rfl, rfl⟩
  · intro hno
    rw [Update_no_match db comic hno]
    exact ⟨rfl, rfl, rfl⟩

/-- C4, witness: the row of id 7 at version 3 and a comic carrying version 3. -/
theorem Update_spec_witness :
    sampleComic.Version < maxInt32 ∧
    (((Update sampleDB sampleComic).2.2 = none ↔
      ∃ r, sampleDB.comics sampleComic.ID = some r ∧ r.Version = sampleComic.Version) ∧
    (∀ r, sampleDB.comics sampleComic.ID = some r → r.Version = sampleComic.Version →
      (Update sampleDB sampleComic).2.2 = none ∧
      (Update sampleDB sampleComic).2.1 = { sampleComic with Version := sampleComic.Version + 1 } ∧
      (Update sampleDB sampleComic).1.comics sampleComic.ID =
        some { CreatedAt := r.CreatedAt, Title := sampleComic.Title, Year := sampleComic.Year,
               Volumes := sampleComic.Volumes, Genres := sampleComic.Genres,
               Version := r.Version + 1 } ∧
      (∀ i, i ≠ sampleComic.ID → (Update sampleDB sampleComic).1.comics i = sampleDB.comics i) ∧
      (∀ stale : Comic, stale.ID = sampleComic.ID → stale.Version = sampleComic.Version →
        (Update (Update sampleDB sampleComic).1 stale).2.2 = some GoError.EditConflictError ∧
        (Update (Update sampleDB sampleComic).1 stale).2.1 = stale ∧
        (Update (Update sampleDB sampleComic).1 stale).1.comics
          = (Update sampleDB sampleComic).1.comics)) ∧
    ((¬ ∃ r, sampleDB.comics sampleComic.ID = some r ∧ r.Version = sampleComic.Version) →
      (Update sampleDB sampleComic).2.2 = some GoError.EditConflictError ∧
      (Update sampleDB sampleComic).2.1 = sampleComic ∧
      (Update sampleDB sampleComic).1.comics = sampleDB.comics)) :=
  ⟨by decide, Update_spec sampleDB sampleComic (by decide)⟩

/-- C4, counterexample. The row of id 7 is stored at version 2147483647 and the
comic carries that version, yet `Update` does not succeed: it returns an
error, and not `EditConflictError`. -/
theorem Update_at_max_version_fails :
    ((dbAtVersion 2147483647).comics maxVersionComic.ID).map (fun r => r.Version)
        = some maxVersionComic.Version ∧
      (Update (dbAtVersion 2147483647) maxVersionComic).2.2 ≠ none ∧
      (Update (dbAtVersion 2147483647) maxVersionComic).2.2 ≠ some GoError.EditConflictError := by
  decide

/-! ## Theorems: the handlers -/

theorem Get_some (db : DB) (id : Int) (db1 : DB) (fetched : Comic)
    (h : Get db id = (db1, some fetched, none)) : fetched.ID = id := by
  unfold Get at h
  split at h
  · simp at h
  · unfold queryRowByID at h
    cases hr : db.comics id with
    | none => simp [hr] at h
    | some r =>
      simp only [hr, Prod.mk.injEq, Option.some.injEq, and_true] at h
      rw [← h.2]
      rfl

theorem updateComicHandler_calls (db : DB) (idParam : Except GoError Int) (expected : String)
    (body : Except GoError UpdateInput) (nowYear : Int) (jsonErr : Option GoError) (c : Comic)
    (h : (updateComicHandler db idParam expected body nowYear jsonErr).validated = some c ∨
      (updateComicHandler db idParam expected body nowYear jsonErr).updated = some c) :
    ∃ id input db1 fetched, idParam = Except.ok id ∧ body = Except.ok input ∧
      Get db id = (db1, some fetched, none) ∧
      c = { ID := fetched.ID, CreatedAt := fetched.CreatedAt,
            Title := input.Title.getD fetched.Title, Year := input.Year.getD fetched.Year,
            Volumes := input.Volumes.getD fetched.Volumes,
            Genres := (match input.Genres with
              | some g => some g
              | none => fetched.Genres),
            Version := fetched.Version } := by
  cases idParam with
  | error e => simp [updateComicHandler] at h
  | ok id =>
    rcases hg : Get db id with ⟨db1, oc, oe⟩
    cases oe with
    | some err =>
      simp only [updateComicHandler, hg] at h
      split at h <;> simp at h
    | none =>
      cases oc with
      | none => simp [updateComicHandler, hg] at h
      | some fetched =>
        cases body with
        | error e =>
          simp only [updateComicHandler, hg] at h
          split at h <;> simp at h
        | ok input =>
          refine ⟨id, input, db1, fetched, rfl, rfl, hg, ?_⟩
          simp only [updateComicHandler, hg] at h
          split at h
          · simp at h
          · rcases input with ⟨t, y, n, g⟩
            cases t <;> cases y <;> cases n <;> cases g <;>
              simp only [Option.getD_none, Option.getD_some] at h ⊢ <;>
              (split at h
               · simp only [Option.some.injEq, or_false, reduceCtorEq] at h
                 exact h.symm
               · split at h
                 · split at h <;> simp only [Option.some.injEq, or_self] at h <;> exact h.symm
                 · split at h <;> simp only [Option.some.injEq, or_self] at h <;> exact h.symm)

/-- C8. Whatever the decoded body holds, the comic `updateComicHandler` hands to
`ValidateComic` and to `ComicModel.Update` has the ID, CreatedAt and Version
of the record fetched by `Get`, and each of Title, Year, Volumes and Genres is
the body's value when the body has one and the fetched record's otherwise. -/
theorem updateComicHandler_frame (db : DB) (idParam : Except GoError Int) (expected : String)
    (body : Except GoError UpdateInput) (nowYear : Int) (jsonErr : Option GoError) (c : Comic)
    (h : (updateComicHandler db idParam expected body nowYear jsonErr).validated = some c ∨
      (updateComicHandler db idParam expected body nowYear jsonErr).updated = some c) :
    ∃ id input fetched, idParam = Except.ok id ∧ body = Except.ok input ∧
      (Get db id).2 = (some fetched, none) ∧ fetched.ID = id ∧
      c.ID = fetched.ID ∧ c.CreatedAt = fetched.CreatedAt ∧ c.Version = fetched.Version ∧
      (∀ t, input.Title = some t → c.Title = t) ∧ (input.Title = none → c.Title = fetched.Title) ∧
      (∀ y, input.Year = some y → c.Year = y) ∧ (input.Year = none → c.Year = fetched.Year) ∧
      (∀ n, input.Volumes = some n → c.Volumes = n) ∧
      (input.Volumes = none → c.Volumes = fetched.Volumes) ∧
      (∀ g, input.Genres = some g → c.Genres = some g) ∧
      (input.Genres = none → c.Genres = fetched.Genres) := by
  obtain ⟨id, input, db1, fetched, h1, h2, h3, h4⟩ :=
    updateComicHandler_calls db idParam expected body nowYear jsonErr c h
  refine ⟨id, input, fetched, h1, h2, by rw [h3], Get_some db id db1 fetched h3, ?_⟩
  subst h4
  refine ⟨rfl, rfl, rfl, ?_, ?_, ?_, ?_, ?_, ?_, ?_, ?_⟩
  · intro t ht; simp [ht]
  · intro ht; simp [ht]
  · intro y hy; simp [hy]
  · intro hy; simp [hy]
  · intro n hn; simp [hn]
  · intro hn; simp [hn]
  · intro g hg; simp [hg]
  · intro hg; simp [hg]

/-- C8, witness: a body that changes the year only, on the row of id 7. -/
theorem updateComicHandler_frame_witness :
    ((updateComicHandler sampleDB (Except.ok 7) "" (Except.ok yearOnlyInput) 2026 none).validated
        = some mergedComic ∨
      (updateComicHandler sampleDB (Except.ok 7) "" (Except.ok yearOnlyInput) 2026 none).updated
        = some mergedComic) ∧
    ∃ id input fetched, (Except.ok 7 : Except GoError Int) = Except.ok id ∧
      (Except.ok yearOnlyInput : Except GoError UpdateInput) = Except.ok input ∧
      (Get sampleDB id).2 = (some fetched, none) ∧ fetched.ID = id ∧
      mergedComic.ID = fetched.ID ∧ mergedComic.CreatedAt = fetched.CreatedAt ∧
      mergedComic.Version = fetched.Version ∧
      (∀ t, input.Title = some t → mergedComic.Title = t) ∧
      (input.Title = none → mergedComic.Title = fetched.Title) ∧
      (∀ y, input.Year = some y → mergedComic.Year = y) ∧
      (input.Year = none → mergedComic.Year = fetched.Year) ∧
      (∀ n, input.Volumes = some n → mergedComic.Volumes = n) ∧
      (input.Volumes = none → mergedComic.Volumes = fetched.Volumes) ∧
      (∀ g, input.Genres = some g → mergedComic.Genres = some g) ∧
      (input.Genres = none → mergedComic.Genres = fetched.Genres) :=
  ⟨Or.inl (by decide),
    updateComicHandler_frame sampleDB (Except.ok 7) "" (Except.ok yearOnlyInput) 2026 none
      mergedComic (Or.inl (by decide))⟩

theorem FormatInt_base32_small (v : Int) (h0 : 0 ≤ v) (h9 : v ≤ 9) :
    FormatInt v 32 = FormatInt v 10 := by
  interval_cases v <;> rfl

theorem updateComicHandler_gate (db : DB) (id : Int) (db1 : DB) (comic : Comic)
    (expected : String) (body : Except GoError UpdateInput) (nowYear : Int)
    (jsonErr : Option GoError) (hg : Get db id = (db1, some comic, none))
    (he : expected ≠ "") (hne : FormatInt comic.Version 32 ≠ expected) :
    (updateComicHandler db (Except.ok id) expected body nowYear jsonErr).responses
        = [Response.editConflict] ∧
      (updateComicHandler db (Except.ok id) expected body nowYear jsonErr).updated = none := by
  simp only [updateComicHandler, hg]
  rw [if_pos ⟨he, hne⟩]
  exact ⟨rfl, rfl⟩

/-- C9, the code at a failing input. The stored version is 10, which the API
renders as `10`. A request whose `X-Expected-Version` is `10` is answered with
the edit conflict and no write is attempted, while a request whose header is
`a`, the base-32 text of 10, goes on to the write. -/
theorem expected_version_gate_compares_base32 :
    FormatInt 10 10 = "10" ∧ FormatInt 10 32 = "a" ∧
      (updateComicHandler (dbAtVersion 10) (Except.ok 7) "10" (Except.ok yearOnlyInput) 2026
        none).responses = [Response.editConflict] ∧
      (updateComicHandler (dbAtVersion 10) (Except.ok 7) "10" (Except.ok yearOnlyInput) 2026
        none).updated = none ∧
      (updateComicHandler (dbAtVersion 10) (Except.ok 7) "a" (Except.ok yearOnlyInput) 2026
        none).updated = some { mergedComic with Version := 10 } ∧
      (updateComicHandler (dbAtVersion 10) (Except.ok 7) "a" (Except.ok yearOnlyInput) 2026
        none).responses = [Response.json 200 (Envelope.comic { mergedComic with Version := 11 })] := by
  decide

/-- C10, the code at a failing input. When `GetAll` returns an error,
`listComicsHandler` writes the server-error response and then the 200
response with the metadata and comics as well; with filters that fail
validation it writes the 422 response only, and when `GetAll` succeeds the
200 response only. -/
theorem listComicsHandler_writes_twice_on_error :
    listComicsHandler Validator.New sampleFilters
        (none, emptyMetadata, some (GoError.other "context deadline exceeded")) none
      = [Response.serverError (GoError.other "context deadline exceeded"),
         Response.json 200 (Envelope.comics emptyMetadata none)] ∧
    listComicsHandler Validator.New badFilters (some [], emptyMetadata, none) none
      = [Response.failedValidation [("page_size", "must be a maximum of 100")]] ∧
    listComicsHandler Validator.New sampleFilters (some [sampleComic], emptyMetadata, none) none
      = [Response.json 200 (Envelope.comics emptyMetadata (some [sampleComic]))] := by
  decide

end Comicfleet
